import Mathlib

/-
  Verification of the pkt-rs packet decoding library.

  Shallow embedding of the Rust sources (src/lib.rs, ethernet.rs, vlan.rs,
  arp.rs, ipv4.rs, icmpv4.rs, udp.rs, tcp.rs, gre.rs).

  Modelling conventions:
  * a byte slice is a `List Nat` whose elements are < 256 (`Bytes`);
  * a nom parser `&[u8] -> IResult<&[u8], T>` becomes `Parser T`, i.e.
    `List Nat → PRes T`; `PRes.ok v rest` is `Ok((rest, v))`, `PRes.err`
    is a nom `Err` (the dispatcher recovers from it using its own copy of
    the input slice, so the error payload need not be carried), and
    `PRes.fatal` models a Rust panic (an `unwrap()` of an `Err`), which
    propagates past every caller;
  * machine-integer arithmetic is modelled with release-mode (wrapping)
    semantics: `u8` subtraction and multiplication wrap modulo 256
    (`wrapSub8`, `wrapMul8`); debug builds would panic at the same spots;
  * `u16::from_ne_bytes` in icmpv4.rs is modelled for little-endian hosts
    (the targets this crate runs on), where `from_ne_bytes([b1, b0])`
    is the big-endian word `b0 * 256 + b1`;
  * `x << 8 | y` on disjoint ranges (`y < 256`) is written `x * 256 + y`.
-/

namespace PktRs

/-- All elements of the list are valid `u8` values. -/
def Bytes (bs : List Nat) : Prop := ∀ b ∈ bs, b < 256

instance : DecidablePred Bytes := fun bs =>
  inferInstanceAs (Decidable (∀ b ∈ bs, b < 256))

/-- Result of running a parser: success with leftover input, a recoverable
nom error, or a Rust panic. -/
inductive PRes (α : Type) where
  | ok (val : α) (rest : List Nat)
  | err
  | fatal
deriving DecidableEq

abbrev Parser (α : Type) := List Nat → PRes α

/-- Sequencing of parsers, as in nom's `do_parse!` chains. -/
def pbind {α β : Type} (p : Parser α) (f : α → Parser β) : Parser β := fun bs =>
  match p bs with
  | .ok v rest => f v rest
  | .err => .err
  | .fatal => .fatal

def ppure {α : Type} (v : α) : Parser α := fun bs => .ok v bs

/-- nom `be_u8`. -/
def be_u8 : Parser Nat := fun bs =>
  match bs with
  | [] => .err
  | b :: rest => .ok b rest

/-- nom `be_u16` (big-endian). -/
def be_u16 : Parser Nat := fun bs =>
  match bs with
  | b0 :: b1 :: rest => .ok (b0 * 256 + b1) rest
  | _ => .err

/-- nom `be_u32` (big-endian). -/
def be_u32 : Parser Nat := fun bs =>
  match bs with
  | b0 :: b1 :: b2 :: b3 :: rest =>
      .ok (b0 * 16777216 + b1 * 65536 + b2 * 256 + b3) rest
  | _ => .err

/-- nom `take(n)`. -/
def takeN (n : Nat) : Parser (List Nat) := fun bs =>
  if n ≤ bs.length then .ok (bs.take n) (bs.drop n) else .err

/-- nom `rest`: consume the whole remaining input. -/
def prest : Parser (List Nat) := fun bs => .ok bs []

/-- Big-endian bytes of a `u16` value (byteorder `write_u16::<NetworkEndian>`). -/
def u16be (n : Nat) : List Nat := [n / 256 % 256, n % 256]

/-- Big-endian bytes of a `u32` value (byteorder `write_u32::<NetworkEndian>`). -/
def u32be (n : Nat) : List Nat :=
  [n / 16777216 % 256, n / 65536 % 256, n / 256 % 256, n % 256]

/-- Wrapping `u8` subtraction (release-mode `a - b` on `u8`). -/
def wrapSub8 (a b : Nat) : Nat := (a % 256 + 256 - b % 256) % 256

/-- Wrapping `u8` multiplication (release-mode `a * b` on `u8`). -/
def wrapMul8 (a b : Nat) : Nat := a * b % 256

/-! ## Ethernet (src/ethernet.rs) -/

/-- A MAC address is kept as its 6 raw bytes; `MacAddress::from_bytes` on a
6-byte slice always succeeds and `as_bytes` returns the same bytes. -/
structure Ethernet where
  destination : List Nat
  source : List Nat
  eth_type : Nat
deriving DecidableEq

/-- ethernet.rs `parse_macaddr`: `take(6)` then `MacAddress::from_bytes`. -/
def parse_macaddr : Parser (List Nat) := takeN 6

def Ethernet.as_bytes (e : Ethernet) : List Nat :=
  e.destination ++ e.source ++ u16be e.eth_type

def Ethernet.from_bytes : Parser Ethernet :=
  pbind parse_macaddr fun destination =>
  pbind parse_macaddr fun source =>
  pbind be_u16 fun eth_type =>
  ppure { destination, source, eth_type }

/-! ## Dot1Q (src/vlan.rs) -/

structure Dot1Q where
  tpid : Nat
  tci : Nat
deriving DecidableEq

/-- vlan.rs encodes `tci` first, then `tpid`. -/
def Dot1Q.as_bytes (v : Dot1Q) : List Nat := u16be v.tci ++ u16be v.tpid

/-- vlan.rs decodes `tci` first, then `tpid`. -/
def Dot1Q.from_bytes : Parser Dot1Q :=
  pbind be_u16 fun tci =>
  pbind be_u16 fun tpid =>
  ppure { tpid, tci }

/-! ## ARP (src/arp.rs) -/

/-- `std::net::Ipv4Addr`, built by `Ipv4Addr::new(v[0], v[1], v[2], v[3])`. -/
structure Ipv4Addr where
  o0 : Nat
  o1 : Nat
  o2 : Nat
  o3 : Nat
deriving DecidableEq

def Ipv4Addr.octets (a : Ipv4Addr) : List Nat := [a.o0, a.o1, a.o2, a.o3]

/-- `u32::from(Ipv4Addr)`: big-endian packing of the four octets. -/
def Ipv4Addr.toU32 (a : Ipv4Addr) : Nat :=
  a.o0 * 16777216 + a.o1 * 65536 + a.o2 * 256 + a.o3

/-- arp.rs / ipv4.rs `parse_ip4addr`: `take(4)` then `Ipv4Addr::new`. -/
def parse_ip4addr : Parser Ipv4Addr :=
  pbind (takeN 4) fun v =>
  ppure ⟨v.getD 0 0, v.getD 1 0, v.getD 2 0, v.getD 3 0⟩

structure Arp where
  hardware_type : Nat
  protocol_type : Nat
  hardware_length : Nat
  protocol_length : Nat
  operation : Nat
  sha : List Nat
  spa : Ipv4Addr
  tha : List Nat
  tpa : Ipv4Addr
deriving DecidableEq

def Arp.as_bytes (a : Arp) : List Nat :=
  u16be a.hardware_type ++ u16be a.protocol_type ++
  [a.hardware_length] ++ [a.protocol_length] ++ u16be a.operation ++
  a.sha ++ a.spa.octets ++ a.tha ++ a.tpa.octets

def Arp.from_bytes : Parser Arp :=
  pbind be_u16 fun hardware_type =>
  pbind be_u16 fun protocol_type =>
  pbind be_u8 fun hardware_length =>
  pbind be_u8 fun protocol_length =>
  pbind be_u16 fun operation =>
  pbind parse_macaddr fun sha =>
  pbind parse_ip4addr fun spa =>
  pbind parse_macaddr fun tha =>
  pbind parse_ip4addr fun tpa =>
  ppure { hardware_type, protocol_type, hardware_length, protocol_length,
          operation, sha, spa, tha, tpa }

/-! ## IPv4 (src/ipv4.rs) -/

structure IPv4 where
  version_ihl : Nat
  tos : Nat
  total_length : Nat
  identifier : Nat
  fragment_offset : Nat
  ttl : Nat
  protocol : Nat
  checksum : Nat
  source : Ipv4Addr
  destination : Ipv4Addr
  options : List Nat
deriving DecidableEq

/-- One pass of ipv4.rs's carry loop, with explicit fuel.  The summand
strictly decreases on every iteration (shown in `foldCarryAux_le` below),
so `s` units of fuel always suffice for an initial sum `s`; the fuelled
form keeps the definition structurally recursive and computable. -/
def foldCarryAux : Nat → Nat → Nat
  | 0, s => s
  | n + 1, s => if 0xffff < s then foldCarryAux n (s / 65536 + s % 65536) else s

/-- ipv4.rs: `while tmp_sum > 0xffff { tmp_sum = (tmp_sum >> 16) + (tmp_sum & 0xffff) }`.
`>> 16` is division and `& 0xffff` is remainder by 2^16. -/
def foldCarry (s : Nat) : Nat := foldCarryAux s s

/-- The ten 16-bit words summed by `calculate_ip_checksum` (the checksum
field itself is skipped, i.e. treated as zero; options are excluded).
`(x as u16) << 8 | y` with `y < 256` is written `x * 256 + y`, and the
`u32 >> 16` / `& 0xffff` halves of addresses are written with `/` and `%`. -/
def IPv4.checksumFields (h : IPv4) : List Nat :=
  [h.version_ihl * 256 + h.tos,
   h.total_length,
   h.identifier,
   h.fragment_offset,
   h.ttl * 256 + h.protocol,
   h.source.toU32 / 65536 % 65536,
   h.source.toU32 % 65536,
   h.destination.toU32 / 65536 % 65536,
   h.destination.toU32 % 65536]

/-- ipv4.rs `calculate_ip_checksum`.  The final `!tmp_sum as u16` is the
16-bit complement `0xffff - tmp_sum` since the loop leaves `tmp_sum ≤ 0xffff`. -/
def IPv4.calculate_ip_checksum (h : IPv4) : Nat :=
  0xffff - foldCarry (h.checksumFields.foldl (· + ·) 0)

def IPv4.as_bytes (h : IPv4) : List Nat :=
  [h.version_ihl] ++ [h.tos] ++ u16be h.total_length ++ u16be h.identifier ++
  u16be h.fragment_offset ++ [h.ttl] ++ [h.protocol] ++ u16be h.checksum ++
  h.source.octets ++ h.destination.octets ++ h.options

/-- ipv4.rs `from_bytes`; the options length `(version_ihl & 0x0f) * 4 - 20`
is an unchecked `u8` subtraction, modelled with release-mode wrapping
(`wrapSub8`); a debug build would panic when the header-length nibble is < 5. -/
def IPv4.from_bytes : Parser IPv4 :=
  pbind be_u8 fun version_ihl =>
  pbind be_u8 fun tos =>
  pbind be_u16 fun total_length =>
  pbind be_u16 fun identifier =>
  pbind be_u16 fun fragment_offset =>
  pbind be_u8 fun ttl =>
  pbind be_u8 fun protocol =>
  pbind be_u16 fun checksum =>
  pbind parse_ip4addr fun source =>
  pbind parse_ip4addr fun destination =>
  pbind (takeN (wrapSub8 ((version_ihl &&& 0x0f) * 4) 20)) fun options =>
  ppure { version_ihl, tos, total_length, identifier, fragment_offset,
          ttl, protocol, checksum, source, destination, options }

/-! ## ICMPv4 (src/icmpv4.rs) -/

structure Icmpv4 where
  icmp_code : Nat
  icmp_type : Nat
  checksum : Nat
  payload : List Nat
deriving DecidableEq

/-- icmpv4.rs: `payload.chunks_exact(2)` mapped through
`u16::from_ne_bytes([i[1], i[0]])` on a little-endian host, i.e. the
big-endian word `i[0] * 256 + i[1]`; a trailing odd byte is dropped. -/
def chunks2 : List Nat → List Nat
  | b0 :: b1 :: rest => (b0 * 256 + b1) :: chunks2 rest
  | _ => []

/-- The words summed by `calculate_icmp_checksum`: the `code << 8 | type`
word followed by the payload words. -/
def Icmpv4.icmpWords (h : Icmpv4) : List Nat :=
  (h.icmp_code * 256 + h.icmp_type) :: chunks2 h.payload

/-- icmpv4.rs `calculate_icmp_checksum`: a single end-around-carry step
`(sum & 0xffff) + (sum >> 16)`, masked to 16 bits, then complemented
(`!x as u16` is `0xffff - x` for `x ≤ 0xffff`).  Unlike ipv4.rs this does
NOT loop until the carry is absorbed. -/
def Icmpv4.calculate_icmp_checksum (h : Icmpv4) : Nat :=
  0xffff - ((h.icmpWords.foldl (· + ·) 0) % 65536 +
            (h.icmpWords.foldl (· + ·) 0) / 65536) % 65536

def Icmpv4.as_bytes (h : Icmpv4) : List Nat :=
  [h.icmp_code] ++ [h.icmp_type] ++ u16be h.checksum ++ h.payload

def Icmpv4.from_bytes : Parser Icmpv4 :=
  pbind be_u8 fun icmp_code =>
  pbind be_u8 fun icmp_type =>
  pbind be_u16 fun checksum =>
  pbind prest fun payload =>
  ppure { icmp_code, icmp_type, checksum, payload }

/-! ## UDP (src/udp.rs) -/

structure Udp where
  source : Nat
  destination : Nat
  length : Nat
  checksum : Nat
deriving DecidableEq

def Udp.as_bytes (u : Udp) : List Nat :=
  u16be u.source ++ u16be u.destination ++ u16be u.length ++ u16be u.checksum

def Udp.from_bytes : Parser Udp :=
  pbind be_u16 fun source =>
  pbind be_u16 fun destination =>
  pbind be_u16 fun length =>
  pbind be_u16 fun checksum =>
  ppure { source, destination, length, checksum }

/-! ## TCP (src/tcp.rs) -/

structure TcpOption where
  number : Nat
  length : List Nat
  data : List Nat
deriving DecidableEq

def TcpOption.as_bytes (o : TcpOption) : List Nat :=
  [o.number] ++ o.length ++ o.data

/-- tcp.rs `tcp_option_data`; `(length - 2) as usize` is an unchecked `u8`
subtraction, modelled with release-mode wrapping (`wrapSub8`). -/
def tcp_option_data (number : Nat) : Parser (List Nat × List Nat) :=
  if number = 0 ∨ number = 1 then ppure ([], [])
  else
    pbind be_u8 fun length =>
    pbind (takeN (wrapSub8 length 2)) fun value =>
    ppure ([length], value)

def TcpOption.from_bytes : Parser TcpOption :=
  pbind be_u8 fun number =>
  pbind (tcp_option_data number) fun d =>
  ppure { number, length := d.1, data := d.2 }

structure Tcp where
  source : Nat
  destination : Nat
  sequence : Nat
  acknowledgement : Nat
  data_offset : Nat
  ns : Nat
  cwr : Nat
  ece : Nat
  urg : Nat
  ack : Nat
  psh : Nat
  rst : Nat
  syn : Nat
  fin : Nat
  window_size : Nat
  checksum : Nat
  urgent_ptr : Nat
  options : List TcpOption
deriving DecidableEq

/-- tcp.rs `parse_options`, parameterised by fuel.  Each loop iteration runs
`TcpOption::from_bytes(b).unwrap()`: a parse error panics (`none`).  A
successful option always consumes at least the kind byte, so fuel
`bytes.length + 1` is always sufficient (see `parse_optionsF_fuel`). -/
def parse_optionsF : Nat → List Nat → Option (List TcpOption)
  | 0, _ => none
  | fuel + 1, b =>
    match TcpOption.from_bytes b with
    | .ok option leftover =>
        if option.number = 0 then some [option]
        else (parse_optionsF fuel leftover).map (option :: ·)
    | _ => none

def Tcp.parse_options (bytes : List Nat) : Option (List TcpOption) :=
  parse_optionsF (bytes.length + 1) bytes

/-- tcp.rs `from_bytes`; the options-region length
`((data_ofs_ns >> 4) - 5) * 4` is unchecked `u8` arithmetic, modelled with
release-mode wrapping; a panic inside `parse_options` propagates as `fatal`. -/
def Tcp.from_bytes : Parser Tcp :=
  pbind be_u16 fun source =>
  pbind be_u16 fun destination =>
  pbind be_u32 fun sequence =>
  pbind be_u32 fun acknowledgement =>
  pbind be_u8 fun data_ofs_ns =>
  pbind be_u8 fun flags_rest =>
  pbind be_u16 fun window_size =>
  pbind be_u16 fun checksum =>
  pbind be_u16 fun urgent_ptr =>
  pbind (takeN (wrapMul8 (wrapSub8 (data_ofs_ns >>> 4) 5) 4)) fun options_bin =>
  fun rest =>
    match Tcp.parse_options options_bin with
    | some options =>
        .ok { source, destination, sequence, acknowledgement,
              data_offset := data_ofs_ns >>> 4,
              ns := data_ofs_ns &&& 0x01,
              cwr := (flags_rest >>> 7) &&& 0x01,
              ece := (flags_rest >>> 6) &&& 0x01,
              urg := (flags_rest >>> 5) &&& 0x01,
              ack := (flags_rest >>> 4) &&& 0x01,
              psh := (flags_rest >>> 3) &&& 0x01,
              rst := (flags_rest >>> 2) &&& 0x01,
              syn := (flags_rest >>> 1) &&& 0x01,
              fin := (flags_rest >>> 0) &&& 0x01,
              window_size, checksum, urgent_ptr, options } rest
    | none => .fatal

/-- tcp.rs `as_bytes`; the zero padding length
`(data_offset - 5) * 4 - options_bin.len() as u8` is `u8` arithmetic. -/
def Tcp.as_bytes (t : Tcp) : List Nat :=
  let options_bin := t.options.foldl (fun acc opt => acc ++ opt.as_bytes) []
  u16be t.source ++ u16be t.destination ++ u32be t.sequence ++
  u32be t.acknowledgement ++
  [(t.data_offset <<< 4 ||| t.ns) % 256] ++
  [((t.cwr <<< 7) &&& 0x80) ||| ((t.ece <<< 6) &&& 0x40) |||
   ((t.urg <<< 5) &&& 0x20) ||| ((t.ack <<< 4) &&& 0x10) |||
   ((t.psh <<< 3) &&& 0x08) ||| ((t.rst <<< 2) &&& 0x04) |||
   ((t.syn <<< 1) &&& 0x02) ||| ((t.fin <<< 0) &&& 0x01)] ++
  u16be t.window_size ++ u16be t.checksum ++ u16be t.urgent_ptr ++
  options_bin ++
  List.replicate (wrapSub8 (wrapMul8 (wrapSub8 t.data_offset 5) 4) options_bin.length) 0

/-! ## GRE (src/gre.rs) -/

structure Gre where
  has_csum : Bool
  has_key : Bool
  has_sequence : Bool
  version : Nat
  protocol : Nat
  checksum : Nat
  key : Nat
  sequence : Nat
deriving DecidableEq

def Gre.as_bytes (g : Gre) : List Nat :=
  [(if g.has_csum then 0x80 else 0x00) ||| (if g.has_key then 0x20 else 0x00) |||
   (if g.has_sequence then 0x10 else 0x00), g.version] ++
  u16be g.protocol ++
  (if g.has_csum then u16be g.checksum ++ u16be 0 else []) ++
  (if g.has_key then u32be g.key else []) ++
  (if g.has_sequence then u32be g.sequence else [])

/-- gre.rs `parse_options`: conditional fields gated by `flags & 0x80`,
`flags & 0x20`, `flags & 0x10` in fixed order. -/
def Gre.parse_options (flags : Nat) : Parser (Nat × Nat × Nat) :=
  pbind (fun bs => if flags &&& 0x80 ≠ 0 then be_u16 bs else .ok 0 bs) fun csum =>
  pbind (fun bs => if flags &&& 0x80 ≠ 0 then be_u16 bs else .ok 0 bs) fun _res =>
  pbind (fun bs => if flags &&& 0x20 ≠ 0 then be_u32 bs else .ok 0 bs) fun key =>
  pbind (fun bs => if flags &&& 0x10 ≠ 0 then be_u32 bs else .ok 0 bs) fun seq =>
  ppure (csum, key, seq)

/-- gre.rs `from_bytes`.  Note the flag fields of the struct are decoded as
`(flags >> 7) != 0`, `(flags >> 5) != 0`, `(flags >> 4) != 0` — plain
shifts, not single-bit tests — exactly as in the source. -/
def Gre.from_bytes : Parser Gre :=
  pbind be_u8 fun flags =>
  pbind be_u8 fun version =>
  pbind be_u16 fun protocol =>
  pbind (Gre.parse_options flags) fun options =>
  ppure { has_csum := flags >>> 7 != 0,
          has_key := flags >>> 5 != 0,
          has_sequence := flags >>> 4 != 0,
          version := version &&& 0x07,
          protocol,
          checksum := options.1,
          key := options.2.1,
          sequence := options.2.2 }

/-! ## Packet and the layer dispatcher (src/lib.rs) -/

inductive Packet where
  | ETHER (h : Ethernet)
  | ARP (h : Arp)
  | VLAN (h : Dot1Q)
  | IPv4 (h : IPv4)
  | ICMP4 (h : Icmpv4)
  | UDP (h : Udp)
  | TCP (h : Tcp)
  | Payload (bytes : List Nat)
deriving DecidableEq

/-- lib.rs `parse_eth`: wrap the Ethernet codec, turning its error into an
error carrying (implicitly) the untouched input. -/
def Packet.parse_eth : Parser Packet := fun bytes =>
  match Ethernet.from_bytes bytes with
  | .ok ethernet leftover => .ok (.ETHER ethernet) leftover
  | .err => .err
  | .fatal => .fatal

def Packet.parse_arp : Parser Packet := fun bytes =>
  match Arp.from_bytes bytes with
  | .ok arp leftover => .ok (.ARP arp) leftover
  | .err => .err
  | .fatal => .fatal

def Packet.parse_vlan : Parser Packet := fun bytes =>
  match Dot1Q.from_bytes bytes with
  | .ok vlan leftover => .ok (.VLAN vlan) leftover
  | .err => .err
  | .fatal => .fatal

def Packet.parse_ip4 : Parser Packet := fun bytes =>
  match IPv4.from_bytes bytes with
  | .ok ipv4 leftover => .ok (.IPv4 ipv4) leftover
  | .err => .err
  | .fatal => .fatal

def Packet.parse_icmp4 : Parser Packet := fun bytes =>
  match Icmpv4.from_bytes bytes with
  | .ok icmpv4 leftover => .ok (.ICMP4 icmpv4) leftover
  | .err => .err
  | .fatal => .fatal

def Packet.parse_tcp : Parser Packet := fun bytes =>
  match Tcp.from_bytes bytes with
  | .ok tcp leftover => .ok (.TCP tcp) leftover
  | .err => .err
  | .fatal => .fatal

def Packet.parse_udp : Parser Packet := fun bytes =>
  match Udp.from_bytes bytes with
  | .ok udp leftover => .ok (.UDP udp) leftover
  | .err => .err
  | .fatal => .fatal

/-- The match inside lib.rs `parse_next`: select the next codec from the
most recently pushed layer's discriminant; the `_other` arm turns the
remaining bytes into one `Payload` with an empty leftover. -/
def Packet.next_codec (last : Packet) : Parser Packet := fun bytes =>
  match last with
  | .ETHER e =>
      if e.eth_type = 0x0806 then Packet.parse_arp bytes
      else if e.eth_type = 0x8100 then Packet.parse_vlan bytes
      else if e.eth_type = 0x0800 then Packet.parse_ip4 bytes
      else .ok (.Payload bytes) []
  | .VLAN v =>
      if v.tpid = 0x0806 then Packet.parse_arp bytes
      else if v.tpid = 0x8100 then Packet.parse_vlan bytes
      else if v.tpid = 0x0800 then Packet.parse_ip4 bytes
      else .ok (.Payload bytes) []
  | .IPv4 ip =>
      if ip.protocol = 1 then Packet.parse_icmp4 bytes
      else if ip.protocol = 6 then Packet.parse_tcp bytes
      else if ip.protocol = 17 then Packet.parse_udp bytes
      else .ok (.Payload bytes) []
  | _ => .ok (.Payload bytes) []

/-- lib.rs `parse_next`: `pkt.last().unwrap()` (panic on an empty layer
list — unreachable from `parse`), run the selected codec, push the decoded
header on success, and on a codec error push the untouched bytes as one
`Payload` and return an empty leftover.  A panic (`fatal`) propagates. -/
def Packet.parse_next (pkt : List Packet) (bytes : List Nat) :
    Option (List Packet × List Nat) :=
  match pkt.getLast? with
  | none => none
  | some last =>
    match Packet.next_codec last bytes with
    | .ok header leftover => some (pkt ++ [header], leftover)
    | .err => some (pkt ++ [.Payload bytes], [])
    | .fatal => none

/-- lib.rs `parse`'s `while leftover != &[]` loop, with explicit fuel.
Each iteration either ends the loop or strictly shrinks the leftover
(`parse_next_shrinks`), so fuel `leftover.length + 1` is always enough. -/
def Packet.parseLoop : Nat → List Packet → List Nat → Option (List Packet)
  | 0, _, _ => none
  | fuel + 1, headers, leftover =>
    if leftover = [] then some headers
    else
      match Packet.parse_next headers leftover with
      | some (hs, l) => Packet.parseLoop fuel hs l
      | none => none

/-- lib.rs `Packet::parse`.  `some layers` is a normal return; `none` is a
Rust panic escaping the function. -/
def Packet.parse (bytes : List Nat) : Option (List Packet) :=
  match Packet.parse_eth bytes with
  | .err => some [.Payload bytes]
  | .fatal => none
  | .ok ethernet leftover =>
      Packet.parseLoop (bytes.length + 1) [ethernet] leftover

/-! Instrumented variant of the dispatcher that also records, for every
layer, the bytes its codec consumed to produce it (the input slice minus
the leftover).  `parseSpans_fst` below shows it runs in lockstep with
`Packet.parse`. -/

def Packet.parse_nextS (pkt : List (Packet × List Nat)) (bytes : List Nat) :
    Option (List (Packet × List Nat) × List Nat) :=
  match pkt.getLast? with
  | none => none
  | some lastS =>
    match Packet.next_codec lastS.1 bytes with
    | .ok header leftover =>
        some (pkt ++ [(header, bytes.take (bytes.length - leftover.length))], leftover)
    | .err => some (pkt ++ [(.Payload bytes, bytes)], [])
    | .fatal => none

def Packet.parseLoopS :
    Nat → List (Packet × List Nat) → List Nat → Option (List (Packet × List Nat))
  | 0, _, _ => none
  | fuel + 1, headers, leftover =>
    if leftover = [] then some headers
    else
      match Packet.parse_nextS headers leftover with
      | some (hs, l) => Packet.parseLoopS fuel hs l
      | none => none

def Packet.parseSpans (bytes : List Nat) : Option (List (Packet × List Nat)) :=
  match Packet.parse_eth bytes with
  | .err => some [(.Payload bytes, bytes)]
  | .fatal => none
  | .ok ethernet leftover =>
      Packet.parseLoopS (bytes.length + 1)
        [(ethernet, bytes.take (bytes.length - leftover.length))] leftover

/-! ## Specification-side definitions

These are written from the spec's words (not from the source) and are
compared with the embedded code in the theorems below. -/

/-- One's-complement 16-bit addition: add, then fold the end-around carry
(glossary: "summing 16-bit words with end-around carry"). -/
def onesAdd (a b : Nat) : Nat :=
  if 0xffff < a + b then a + b - 0xffff else a + b

/-- The one's-complement sum of a list of 16-bit words. -/
def onesSum (ws : List Nat) : Nat := ws.foldl onesAdd 0

/-- Closed form shared by `onesSum` and `foldCarry`: the value in
`[0, 0xffff]` congruent to `s` modulo `0xffff`, with `0xffff` (not `0`)
reached from positive multiples of `0xffff`. -/
def carryNF (s : Nat) : Nat := if s = 0 then 0 else (s - 1) % 0xffff + 1

/-- The spec's description of the TCP option loop (§4.8, amended to the
wrapping length arithmetic the source actually performs): read a one-byte
kind; kinds 0 and 1 consume nothing further; any other kind reads one
length byte and then `length - 2` (wrapping `u8`) value bytes; the list
ends with, and includes, the first kind-0 option. -/
inductive OptsSpec : List Nat → List TcpOption → Prop where
  | eol (rest : List Nat) : OptsSpec (0 :: rest) [⟨0, [], []⟩]
  | nop (rest : List Nat) (opts : List TcpOption) :
      OptsSpec rest opts → OptsSpec (1 :: rest) (⟨1, [], []⟩ :: opts)
  | other (k len : Nat) (data rest : List Nat) (opts : List TcpOption) :
      k ≠ 0 → k ≠ 1 → data.length = wrapSub8 len 2 →
      OptsSpec rest opts →
      OptsSpec (k :: len :: (data ++ rest)) (⟨k, [len], data⟩ :: opts)

/-- The dispatcher arms that select the Dot1Q codec: the last layer is an
Ethernet header or a VLAN tag whose discriminant is 0x8100. -/
def SelectsVlan : Packet → Prop
  | .ETHER e => e.eth_type = 0x8100
  | .VLAN v => v.tpid = 0x8100
  | _ => False

/-! ## Concrete frames for the closed evaluations -/

/-- A 28-byte ARP header (taken from the repository's `parse_arp` test). -/
def arpRaw : List Nat :=
  [0x00,0x01,0x08,0x00,0x06,0x04,0x00,0x01,
   0xca,0x03,0x0d,0xb4,0x00,0x1c,0xc0,0xa8,0x02,0xc8,
   0x00,0x00,0x00,0x00,0x00,0x00,0xc0,0xa8,0x02,0xfe]

/-- The value `arpRaw` decodes to. -/
def arpVal : Arp :=
  { hardware_type := 1, protocol_type := 0x0800,
    hardware_length := 6, protocol_length := 4, operation := 1,
    sha := [0xca,0x03,0x0d,0xb4,0x00,0x1c], spa := ⟨192,168,2,200⟩,
    tha := [0x00,0x00,0x00,0x00,0x00,0x00], tpa := ⟨192,168,2,254⟩ }

/-- The bytes that remain after an Ethernet(0x8100) header in a frame with
`n` stacked 0x8100 VLAN tags, a final 0x0806 tag, and an ARP header. -/
def stackBytes : Nat → List Nat
  | 0 => [0x00, 0xc8, 0x08, 0x06] ++ arpRaw
  | n + 1 => [0x00, 0x64, 0x81, 0x00] ++ stackBytes n

/-- The layers that `stackBytes n` decodes to. -/
def stackLayers : Nat → List Packet
  | 0 => [.VLAN ⟨0x0806, 200⟩, .ARP arpVal]
  | n + 1 => .VLAN ⟨0x8100, 100⟩ :: stackLayers n

/-- A 14-byte Ethernet header with ethertype 0x8100. -/
def ethQRaw : List Nat := [0,0,0,0,0,0, 0,0,0,0,0,0, 0x81, 0x00]

def ethQVal : Ethernet :=
  { destination := [0,0,0,0,0,0], source := [0,0,0,0,0,0], eth_type := 0x8100 }

/-- The repository's own QinQ test frame, truncated to the exact 50 bytes of
Ethernet(0x8100) + Dot1Q(0x8100) + Dot1Q(0x0806) + ARP. -/
def qinqRaw : List Nat :=
  [0xff,0xff,0xff,0xff,0xff,0xff,0xca,0x03,0x0d,0xb4,0x00,0x1c,0x81,0x00,
   0x00,0x64,0x81,0x00, 0x00,0xc8,0x08,0x06] ++ arpRaw

def qinqEthVal : Ethernet :=
  { destination := [0xff,0xff,0xff,0xff,0xff,0xff],
    source := [0xca,0x03,0x0d,0xb4,0x00,0x1c], eth_type := 0x8100 }

/-- A 20-byte IPv4 header with header-length nibble 5, no options, and the
given protocol number. -/
def ip4Proto (p : Nat) : List Nat :=
  [0x45,0,0,0, 0,0,0,0, 0,p, 0,0, 0,0,0,0, 0,0,0,0]

def ip4ProtoVal (p : Nat) : IPv4 :=
  { version_ihl := 0x45, tos := 0, total_length := 0, identifier := 0,
    fragment_offset := 0, ttl := 0, protocol := p, checksum := 0,
    source := ⟨0,0,0,0⟩, destination := ⟨0,0,0,0⟩, options := [] }

/-- A 14-byte Ethernet header with ethertype 0x0800. -/
def ethIpRaw : List Nat := [0,0,0,0,0,0, 0,0,0,0,0,0, 0x08, 0x00]

def ethIpVal : Ethernet :=
  { destination := [0,0,0,0,0,0], source := [0,0,0,0,0,0], eth_type := 0x0800 }

/-- A 24-byte TCP header, data-offset 6, whose 4-byte options region is all
no-ops: the option loop runs off the end of the region and panics. -/
def tcpNoEol : List Nat :=
  [0,0, 0,0, 0,0,0,0, 0,0,0,0, 0x60, 0, 0,0, 0,0, 0,0] ++ [1,1,1,1]

/-- Input on which `Packet::parse` panics: Ethernet(0x0800) + IPv4(proto 6)
+ a TCP header whose options region holds no kind-0 option. -/
def parsePanicInput : List Nat := ethIpRaw ++ ip4Proto 6 ++ tcpNoEol

/-- A second panic input (for claim C1): the TCP options region is
`[1,1,1,7]`, so the loop reads kind 7 at the last byte and fails to read
its length byte. -/
def tcpNoEol7 : List Nat :=
  [0,0, 0,0, 0,0,0,0, 0,0,0,0, 0x60, 0, 0,0, 0,0, 0,0] ++ [1,1,1,7]

def parsePanicInput7 : List Nat := ethIpRaw ++ ip4Proto 6 ++ tcpNoEol7

/-- 272-byte IPv4 input whose header-length nibble is 4 (< 5): the options
length wraps to 252 and the decode succeeds, consuming all 272 bytes. -/
def ihl4Input : List Nat := 0x44 :: List.replicate 271 0

def ihl4Val : IPv4 :=
  { version_ihl := 0x44, tos := 0, total_length := 0, identifier := 0,
    fragment_offset := 0, ttl := 0, protocol := 0, checksum := 0,
    source := ⟨0,0,0,0⟩, destination := ⟨0,0,0,0⟩,
    options := List.replicate 252 0 }

/-- 272-byte TCP input whose data-offset nibble is 4 (< 5): the options
region length wraps to 252 and the decode succeeds. -/
def tcpDo4Input : List Nat :=
  [0,0, 0,0, 0,0,0,0, 0,0,0,0, 0x40, 0, 0,0, 0,0, 0,0] ++ List.replicate 252 0

def tcpDo4Val : Tcp :=
  { source := 0, destination := 0, sequence := 0, acknowledgement := 0,
    data_offset := 4, ns := 0, cwr := 0, ece := 0, urg := 0, ack := 0,
    psh := 0, rst := 0, syn := 0, fin := 0, window_size := 0, checksum := 0,
    urgent_ptr := 0, options := [⟨0, [], []⟩] }

/-- 24-byte TCP input, data-offset 6, whose first option declares length 0:
`(0 - 2) as usize` wraps to 254, `take(254)` fails, and the `unwrap()` in
`parse_options` panics. -/
def tcpOptLen0Input : List Nat :=
  [0,0, 0,0, 0,0,0,0, 0,0,0,0, 0x60, 0, 0,0, 0,0, 0,0] ++ [2, 0, 0, 0]

/-- The repository's Ethernet test header (first 14 bytes). -/
def ethRtRaw : List Nat :=
  [0x00,0x50,0xd9,0xb8,0xde,0x0d, 0x16,0x2b,0xf1,0x4b,0x09,0x0c, 0x08,0x00]

def ethRtVal : Ethernet :=
  { destination := [0x00,0x50,0xd9,0xb8,0xde,0x0d],
    source := [0x16,0x2b,0xf1,0x4b,0x09,0x0c], eth_type := 0x0800 }

def vlanRtRaw : List Nat := [0x00,0x64, 0x81,0x00]

def vlanRtVal : Dot1Q := { tpid := 0x8100, tci := 100 }

/-- The 20-byte header prefix of the repository's IPv4 test frame (its
stored checksum 0x39a6 is valid). -/
def ip4RtRaw : List Nat :=
  [0x45,0x00,0x01,0x48,0x00,0x00,0x00,0x00,
   0x80,0x11,0x39,0xa6,0x00,0x00,0x00,0x00,0xff,0xff,0xff,0xff]

def ip4RtVal : IPv4 :=
  { version_ihl := 0x45, tos := 0, total_length := 328, identifier := 0,
    fragment_offset := 0, ttl := 0x80, protocol := 0x11, checksum := 0x39a6,
    source := ⟨0,0,0,0⟩, destination := ⟨255,255,255,255⟩, options := [] }

/-- The repository's ICMPv4 test frame (64 bytes). -/
def icmpRtRaw : List Nat :=
  [0x00,0x00,0x93,0xd6,0x05,0x41,0x00,0x01,
   0x71,0xf1,0x66,0x52,0x00,0x00,0x00,0x00,
   0xc6,0xd0,0x09,0x00,0x00,0x00,0x00,0x00,
   0x10,0x11,0x12,0x13,0x14,0x15,0x16,0x17,
   0x18,0x19,0x1a,0x1b,0x1c,0x1d,0x1e,0x1f,
   0x20,0x21,0x22,0x23,0x24,0x25,0x26,0x27,
   0x28,0x29,0x2a,0x2b,0x2c,0x2d,0x2e,0x2f,
   0x30,0x31,0x32,0x33,0x34,0x35,0x36,0x37]

def icmpRtVal : Icmpv4 :=
  { icmp_code := 0, icmp_type := 0, checksum := 0x93d6,
    payload :=
      [0x05,0x41,0x00,0x01,0x71,0xf1,0x66,0x52,0x00,0x00,0x00,0x00,
       0xc6,0xd0,0x09,0x00,0x00,0x00,0x00,0x00,
       0x10,0x11,0x12,0x13,0x14,0x15,0x16,0x17,
       0x18,0x19,0x1a,0x1b,0x1c,0x1d,0x1e,0x1f,
       0x20,0x21,0x22,0x23,0x24,0x25,0x26,0x27,
       0x28,0x29,0x2a,0x2b,0x2c,0x2d,0x2e,0x2f,
       0x30,0x31,0x32,0x33,0x34,0x35,0x36,0x37] }

/-- The repository's UDP test header (8 bytes). -/
def udpRtRaw : List Nat := [0x82,0x75,0x7a,0x69,0x00,0x0e,0xa6,0x0e]

def udpRtVal : Udp :=
  { source := 33397, destination := 31337, length := 14, checksum := 42510 }

/-- The repository's TCP test frame (44 bytes, data-offset 11, options). -/
def tcpRtRaw : List Nat :=
  [0x00,0x50,0xd9,0xb8,0xde,0x0d,0x16,0x2b,
   0xf1,0x4b,0x09,0x0c,0xb0,0x12,0x11,0x04,
   0x8c,0x56,0x00,0x00,0x02,0x04,0x05,0xac,
   0x01,0x03,0x03,0x00,0x01,0x01,0x08,0x0a,
   0xbe,0x0f,0xac,0xec,0x00,0x40,0xa1,0x49,
   0x04,0x02,0x00,0x00]

def tcpRtVal : Tcp :=
  { source := 80, destination := 55736, sequence := 3725399595,
    acknowledgement := 4048226572, data_offset := 11, ns := 0,
    cwr := 0, ece := 0, urg := 0, ack := 1, psh := 0, rst := 0, syn := 1,
    fin := 0, window_size := 4356, checksum := 35926, urgent_ptr := 0,
    options :=
      [⟨2, [4], [5, 172]⟩, ⟨1, [], []⟩, ⟨3, [3], [0]⟩, ⟨1, [], []⟩,
       ⟨1, [], []⟩, ⟨8, [10], [190, 15, 172, 236, 0, 64, 161, 73]⟩,
       ⟨4, [2], []⟩, ⟨0, [], []⟩] }

/-- GRE headers with each well-decoded flag combination. -/
def greF00Raw : List Nat := [0x00, 0x00, 0x08, 0x00]

def greF00Val : Gre :=
  { has_csum := false, has_key := false, has_sequence := false, version := 0,
    protocol := 0x0800, checksum := 0, key := 0, sequence := 0 }

def greF10Raw : List Nat := [0x10, 0x00, 0x08, 0x00, 0x00, 0x00, 0x30, 0x39]

def greF10Val : Gre :=
  { has_csum := false, has_key := false, has_sequence := true, version := 0,
    protocol := 0x0800, checksum := 0, key := 0, sequence := 12345 }

def greF30Raw : List Nat :=
  [0x30, 0x00, 0x08, 0x00, 0xde,0xad,0xbe,0xef, 0x00,0x00,0x30,0x39]

def greF30Val : Gre :=
  { has_csum := false, has_key := true, has_sequence := true, version := 0,
    protocol := 0x0800, checksum := 0, key := 0xdeadbeef, sequence := 12345 }

def greFB0Raw : List Nat :=
  [0xb0, 0x00, 0x08, 0x00, 0x01,0x02, 0x00,0x00, 0xde,0xad,0xbe,0xef,
   0x00,0x00,0x30,0x39]

def greFB0Val : Gre :=
  { has_csum := true, has_key := true, has_sequence := true, version := 0,
    protocol := 0x0800, checksum := 0x0102, key := 0xdeadbeef,
    sequence := 12345 }

/-- GRE header with only the key-present bit (0x20) set: the decoder sets
`has_sequence` although bit 4 is clear, so re-encoding emits a flags byte
0x30 and a phantom 4-byte sequence number. -/
def greF20Raw : List Nat := [0x20, 0x00, 0x08, 0x00, 0xde,0xad,0xbe,0xef]

def greF20Val : Gre :=
  { has_csum := false, has_key := true, has_sequence := true, version := 0,
    protocol := 0x0800, checksum := 0, key := 0xdeadbeef, sequence := 0 }

/-- ICMPv4 value whose word sum 0x2FFFE needs two end-around folds: the
single fold of `calculate_icmp_checksum` differs from the glossary's
one's-complement sum here. -/
def icmpCarryVal : Icmpv4 :=
  { icmp_code := 0xff, icmp_type := 0xff, checksum := 0,
    payload := [0xff, 0xff, 0xff, 0xff, 0x00, 0x01] }

/-- Ethernet(0x0800) + IPv4(protocol 1) + a 4-byte ICMPv4 header. -/
def icmpProtoFrame : List Nat := ethIpRaw ++ ip4Proto 1 ++ [8, 0, 0x12, 0x34]

/-- Ethernet(0x0800) + IPv4(protocol 6) + a 24-byte TCP header whose 4-byte
options region starts with end-of-list. -/
def tcpProtoFrame : List Nat :=
  ethIpRaw ++ ip4Proto 6 ++
    ([0,80, 0,80, 0,0,0,0, 0,0,0,0, 0x60, 0, 0,0, 0,0, 0,0] ++ [0,0,0,0])

def tcpProtoVal : Tcp :=
  { source := 80, destination := 80, sequence := 0, acknowledgement := 0,
    data_offset := 6, ns := 0, cwr := 0, ece := 0, urg := 0, ack := 0,
    psh := 0, rst := 0, syn := 0, fin := 0, window_size := 0, checksum := 0,
    urgent_ptr := 0, options := [⟨0, [], []⟩] }

/-- A 24-byte TCP header, data-offset 6, whose options region
`[00 FF FF FF]` starts with end-of-list followed by three nonzero bytes:
the codec consumes all 24 bytes, but `as_bytes` re-encodes the region as
end-of-list plus zero padding. -/
def tcpPadRaw : List Nat :=
  [0,80, 0,80, 0,0,0,0, 0,0,0,0, 0x60, 0, 0,0, 0,0, 0,0] ++
    [0x00, 0xff, 0xff, 0xff]

/-- Ethernet(0x0800) + IPv4(protocol 6) + `tcpPadRaw`. -/
def tcpPadFrame : List Nat := ethIpRaw ++ ip4Proto 6 ++ tcpPadRaw

/-- Ethernet(0x0800) + IPv4(protocol 17) + an 8-byte UDP header. -/
def udpProtoFrame : List Nat := ethIpRaw ++ ip4Proto 17 ++ udpRtRaw

/-- Ethernet(0x0806) directly followed by an ARP header. -/
def ethArpFrame : List Nat :=
  [0,0,0,0,0,0, 0,0,0,0,0,0, 0x08, 0x06] ++ arpRaw

def ethArpVal : Ethernet :=
  { destination := [0,0,0,0,0,0], source := [0,0,0,0,0,0], eth_type := 0x0806 }

/-! ## Parser lemmas -/

@[simp]
theorem pbind_ok {α β : Type} {p : Parser α} {f : α → Parser β}
    {bs : List Nat} {v : β} {r : List Nat} :
    pbind p f bs = .ok v r ↔ ∃ a m, p bs = .ok a m ∧ f a m = .ok v r := by
  unfold pbind
  cases h : p bs <;> simp
  constructor
  · intro h2; exact ⟨_, _, ⟨rfl, rfl⟩, h2⟩
  · rintro ⟨a, m, ⟨rfl, rfl⟩, h2⟩; exact h2

@[simp]
theorem ppure_ok {α : Type} {a : α} {bs : List Nat} {v : α} {r : List Nat} :
    ppure a bs = .ok v r ↔ v = a ∧ r = bs := by
  unfold ppure
  constructor
  · intro h; cases h; exact ⟨rfl, rfl⟩
  · rintro ⟨rfl, rfl⟩; rfl

@[simp]
theorem be_u8_ok {bs : List Nat} {v : Nat} {r : List Nat} :
    be_u8 bs = .ok v r ↔ bs = v :: r := by
  unfold be_u8
  cases bs <;> simp [eq_comm, And.comm]

theorem be_u16_ok {bs : List Nat} {v : Nat} {r : List Nat} :
    be_u16 bs = .ok v r ↔ ∃ b0 b1, bs = b0 :: b1 :: r ∧ v = b0 * 256 + b1 := by
  unfold be_u16
  match bs with
  | [] => simp
  | [b] => simp
  | b0 :: b1 :: rest =>
    constructor
    · intro h; cases h; exact ⟨b0, b1, rfl, rfl⟩
    · rintro ⟨c0, c1, h, rfl⟩; cases h; rfl

theorem be_u32_ok {bs : List Nat} {v : Nat} {r : List Nat} :
    be_u32 bs = .ok v r ↔
      ∃ b0 b1 b2 b3, bs = b0 :: b1 :: b2 :: b3 :: r ∧
        v = b0 * 16777216 + b1 * 65536 + b2 * 256 + b3 := by
  unfold be_u32
  match bs with
  | [] => simp
  | [_] => simp
  | [_, _] => simp
  | [_, _, _] => simp
  | b0 :: b1 :: b2 :: b3 :: rest =>
    constructor
    · intro h; cases h; exact ⟨b0, b1, b2, b3, rfl, rfl⟩
    · rintro ⟨c0, c1, c2, c3, h, rfl⟩; cases h; rfl

theorem takeN_ok {n : Nat} {bs : List Nat} {v r : List Nat} :
    takeN n bs = .ok v r ↔ n ≤ bs.length ∧ v = bs.take n ∧ r = bs.drop n := by
  unfold takeN
  split
  · constructor
    · intro h; cases h; exact ⟨by assumption, rfl, rfl⟩
    · rintro ⟨-, rfl, rfl⟩; rfl
  · simp_all

@[simp]
theorem prest_ok {bs v r : List Nat} :
    prest bs = .ok v r ↔ v = bs ∧ r = [] := by
  unfold prest
  constructor
  · intro h; cases h; exact ⟨rfl, rfl⟩
  · rintro ⟨rfl, rfl⟩; rfl

theorem takeN_append {n : Nat} {l : List Nat} (r : List Nat)
    (h : l.length = n) : takeN n (l ++ r) = .ok l r := by
  subst h
  unfold takeN
  rw [if_pos (by simp), List.take_left, List.drop_left]

/-- A parser only ever hands back a suffix of its input. -/
def Consumes {α : Type} (p : Parser α) : Prop :=
  ∀ ⦃bs : List Nat⦄ ⦃v : α⦄ ⦃r : List Nat⦄, p bs = .ok v r → ∃ t, t ++ r = bs

theorem consumes_pbind {α β : Type} {p : Parser α} {f : α → Parser β}
    (hp : Consumes p) (hf : ∀ a, Consumes (f a)) : Consumes (pbind p f) := by
  intro bs v r h
  rcases pbind_ok.mp h with ⟨a, m, h1, h2⟩
  rcases hp h1 with ⟨t1, rfl⟩
  rcases hf a h2 with ⟨t2, rfl⟩
  exact ⟨t1 ++ t2, by simp⟩

theorem consumes_ppure {α : Type} (a : α) : Consumes (ppure a) := by
  rintro bs v r h
  rcases ppure_ok.mp h with ⟨rfl, rfl⟩
  exact ⟨[], rfl⟩

theorem consumes_be_u8 : Consumes be_u8 := by
  rintro bs v r h
  rw [be_u8_ok] at h
  exact ⟨[v], h.symm⟩

theorem consumes_be_u16 : Consumes be_u16 := by
  rintro bs v r h
  rcases be_u16_ok.mp h with ⟨b0, b1, rfl, -⟩
  exact ⟨[b0, b1], rfl⟩

theorem consumes_be_u32 : Consumes be_u32 := by
  rintro bs v r h
  rcases be_u32_ok.mp h with ⟨b0, b1, b2, b3, rfl, -⟩
  exact ⟨[b0, b1, b2, b3], rfl⟩

theorem consumes_takeN (n : Nat) : Consumes (takeN n) := by
  rintro bs v r h
  rcases takeN_ok.mp h with ⟨-, rfl, rfl⟩
  exact ⟨bs.take n, List.take_append_drop n bs⟩

theorem consumes_prest : Consumes prest := by
  rintro bs v r h
  rcases prest_ok.mp h with ⟨rfl, rfl⟩
  exact ⟨v, by simp⟩

theorem consumes_parse_macaddr : Consumes parse_macaddr := consumes_takeN 6

theorem consumes_parse_ip4addr : Consumes parse_ip4addr :=
  consumes_pbind (consumes_takeN 4) fun _ => consumes_ppure _

theorem consumes_ethernet : Consumes Ethernet.from_bytes := by
  unfold Ethernet.from_bytes
  exact consumes_pbind consumes_parse_macaddr fun _ =>
    consumes_pbind consumes_parse_macaddr fun _ =>
    consumes_pbind consumes_be_u16 fun _ => consumes_ppure _

theorem consumes_dot1q : Consumes Dot1Q.from_bytes := by
  unfold Dot1Q.from_bytes
  exact consumes_pbind consumes_be_u16 fun _ =>
    consumes_pbind consumes_be_u16 fun _ => consumes_ppure _

theorem consumes_arp : Consumes Arp.from_bytes := by
  unfold Arp.from_bytes
  exact consumes_pbind consumes_be_u16 fun _ =>
    consumes_pbind consumes_be_u16 fun _ =>
    consumes_pbind consumes_be_u8 fun _ =>
    consumes_pbind consumes_be_u8 fun _ =>
    consumes_pbind consumes_be_u16 fun _ =>
    consumes_pbind consumes_parse_macaddr fun _ =>
    consumes_pbind consumes_parse_ip4addr fun _ =>
    consumes_pbind consumes_parse_macaddr fun _ =>
    consumes_pbind consumes_parse_ip4addr fun _ => consumes_ppure _

theorem consumes_ipv4 : Consumes IPv4.from_bytes := by
  unfold IPv4.from_bytes
  exact consumes_pbind consumes_be_u8 fun _ =>
    consumes_pbind consumes_be_u8 fun _ =>
    consumes_pbind consumes_be_u16 fun _ =>
    consumes_pbind consumes_be_u16 fun _ =>
    consumes_pbind consumes_be_u16 fun _ =>
    consumes_pbind consumes_be_u8 fun _ =>
    consumes_pbind consumes_be_u8 fun _ =>
    consumes_pbind consumes_be_u16 fun _ =>
    consumes_pbind consumes_parse_ip4addr fun _ =>
    consumes_pbind consumes_parse_ip4addr fun _ =>
    consumes_pbind (consumes_takeN _) fun _ => consumes_ppure _

theorem consumes_icmpv4 : Consumes Icmpv4.from_bytes := by
  unfold Icmpv4.from_bytes
  exact consumes_pbind consumes_be_u8 fun _ =>
    consumes_pbind consumes_be_u8 fun _ =>
    consumes_pbind consumes_be_u16 fun _ =>
    consumes_pbind consumes_prest fun _ => consumes_ppure _

theorem consumes_udp : Consumes Udp.from_bytes := by
  unfold Udp.from_bytes
  exact consumes_pbind consumes_be_u16 fun _ =>
    consumes_pbind consumes_be_u16 fun _ =>
    consumes_pbind consumes_be_u16 fun _ =>
    consumes_pbind consumes_be_u16 fun _ => consumes_ppure _

theorem consumes_tcp : Consumes Tcp.from_bytes := by
  unfold Tcp.from_bytes
  refine consumes_pbind consumes_be_u16 fun _ =>
    consumes_pbind consumes_be_u16 fun _ =>
    consumes_pbind consumes_be_u32 fun _ =>
    consumes_pbind consumes_be_u32 fun _ =>
    consumes_pbind consumes_be_u8 fun _ =>
    consumes_pbind consumes_be_u8 fun _ =>
    consumes_pbind consumes_be_u16 fun _ =>
    consumes_pbind consumes_be_u16 fun _ =>
    consumes_pbind consumes_be_u16 fun _ =>
    consumes_pbind (consumes_takeN _) fun options_bin => ?_
  rintro bs v r h
  dsimp only at h
  split at h
  · cases h; exact ⟨[], rfl⟩
  · cases h

/-- A parser always consumes at least `n` input bytes on success. -/
def ConsumesGe (n : Nat) {α : Type} (p : Parser α) : Prop :=
  ∀ ⦃bs : List Nat⦄ ⦃v : α⦄ ⦃r : List Nat⦄, p bs = .ok v r →
    r.length + n ≤ bs.length

theorem consumesGe_pbind {α β : Type} {p : Parser α} {f : α → Parser β}
    {m k : Nat} (hp : ConsumesGe m p) (hf : ∀ a, ConsumesGe k (f a)) :
    ConsumesGe (m + k) (pbind p f) := by
  intro bs v r h
  rcases pbind_ok.mp h with ⟨a, mid, h1, h2⟩
  have := hp h1
  have := hf a h2
  omega

theorem consumesGe_ppure {α : Type} (a : α) : ConsumesGe 0 (ppure a) := by
  rintro bs v r h
  rcases ppure_ok.mp h with ⟨rfl, rfl⟩
  omega

theorem consumesGe_be_u8 : ConsumesGe 1 be_u8 := by
  rintro bs v r h
  rw [be_u8_ok] at h
  subst h
  simp

theorem consumesGe_be_u16 : ConsumesGe 2 be_u16 := by
  rintro bs v r h
  rcases be_u16_ok.mp h with ⟨b0, b1, rfl, -⟩
  simp

theorem consumesGe_be_u32 : ConsumesGe 4 be_u32 := by
  rintro bs v r h
  rcases be_u32_ok.mp h with ⟨b0, b1, b2, b3, rfl, -⟩
  simp

theorem consumesGe_takeN (n : Nat) : ConsumesGe n (takeN n) := by
  rintro bs v r h
  rcases takeN_ok.mp h with ⟨hn, rfl, rfl⟩
  simp
  omega

theorem consumesGe_prest : ConsumesGe 0 prest := by
  rintro bs v r h
  rcases prest_ok.mp h with ⟨rfl, rfl⟩
  simp

theorem consumesGe_weaken {α : Type} {p : Parser α} {m k : Nat}
    (h : ConsumesGe m p) (hk : k ≤ m) : ConsumesGe k p := by
  intro bs v r hp
  have := h hp
  omega

theorem ethernet_shrinks : ConsumesGe 14 Ethernet.from_bytes := by
  unfold Ethernet.from_bytes parse_macaddr
  refine consumesGe_weaken
    (consumesGe_pbind (consumesGe_takeN 6) fun a =>
      consumesGe_pbind (consumesGe_takeN 6) fun b =>
      consumesGe_pbind consumesGe_be_u16 fun c => consumesGe_ppure _)
    (by omega)

theorem consumesGe_parse_ip4addr : ConsumesGe 4 parse_ip4addr := by
  unfold parse_ip4addr
  refine consumesGe_weaken
    (consumesGe_pbind (consumesGe_takeN 4) fun a => consumesGe_ppure _)
    (by omega)

theorem dot1q_shrinks : ConsumesGe 4 Dot1Q.from_bytes := by
  unfold Dot1Q.from_bytes
  refine consumesGe_weaken
    (consumesGe_pbind consumesGe_be_u16 fun a =>
      consumesGe_pbind consumesGe_be_u16 fun b => consumesGe_ppure _)
    (by omega)

theorem arp_shrinks : ConsumesGe 28 Arp.from_bytes := by
  unfold Arp.from_bytes parse_macaddr
  refine consumesGe_weaken
    (consumesGe_pbind consumesGe_be_u16 fun a =>
      consumesGe_pbind consumesGe_be_u16 fun b =>
      consumesGe_pbind consumesGe_be_u8 fun c =>
      consumesGe_pbind consumesGe_be_u8 fun d =>
      consumesGe_pbind consumesGe_be_u16 fun e =>
      consumesGe_pbind (consumesGe_takeN 6) fun f =>
      consumesGe_pbind consumesGe_parse_ip4addr fun g =>
      consumesGe_pbind (consumesGe_takeN 6) fun i =>
      consumesGe_pbind consumesGe_parse_ip4addr fun j => consumesGe_ppure _)
    (by omega)

theorem ipv4_shrinks : ConsumesGe 20 IPv4.from_bytes := by
  unfold IPv4.from_bytes
  refine consumesGe_weaken
    (consumesGe_pbind consumesGe_be_u8 fun a =>
      consumesGe_pbind consumesGe_be_u8 fun b =>
      consumesGe_pbind consumesGe_be_u16 fun c =>
      consumesGe_pbind consumesGe_be_u16 fun d =>
      consumesGe_pbind consumesGe_be_u16 fun e =>
      consumesGe_pbind consumesGe_be_u8 fun f =>
      consumesGe_pbind consumesGe_be_u8 fun g =>
      consumesGe_pbind consumesGe_be_u16 fun i =>
      consumesGe_pbind consumesGe_parse_ip4addr fun j =>
      consumesGe_pbind consumesGe_parse_ip4addr fun k =>
      consumesGe_pbind (consumesGe_weaken (consumesGe_takeN _) (Nat.zero_le _)) fun l =>
      consumesGe_ppure _)
    (by omega)

theorem icmpv4_shrinks : ConsumesGe 4 Icmpv4.from_bytes := by
  unfold Icmpv4.from_bytes
  refine consumesGe_weaken
    (consumesGe_pbind consumesGe_be_u8 fun a =>
      consumesGe_pbind consumesGe_be_u8 fun b =>
      consumesGe_pbind consumesGe_be_u16 fun c =>
      consumesGe_pbind consumesGe_prest fun d => consumesGe_ppure _)
    (by omega)

theorem udp_shrinks : ConsumesGe 8 Udp.from_bytes := by
  unfold Udp.from_bytes
  refine consumesGe_weaken
    (consumesGe_pbind consumesGe_be_u16 fun a =>
      consumesGe_pbind consumesGe_be_u16 fun b =>
      consumesGe_pbind consumesGe_be_u16 fun c =>
      consumesGe_pbind consumesGe_be_u16 fun d => consumesGe_ppure _)
    (by omega)

theorem tcp_shrinks : ConsumesGe 20 Tcp.from_bytes := by
  intro bs v r h
  unfold Tcp.from_bytes at h
  rcases pbind_ok.mp h with ⟨a1, m1, h1, h⟩
  rcases pbind_ok.mp h with ⟨a2, m2, h2, h⟩
  rcases pbind_ok.mp h with ⟨a3, m3, h3, h⟩
  rcases pbind_ok.mp h with ⟨a4, m4, h4, h⟩
  rcases pbind_ok.mp h with ⟨a5, m5, h5, h⟩
  rcases pbind_ok.mp h with ⟨a6, m6, h6, h⟩
  rcases pbind_ok.mp h with ⟨a7, m7, h7, h⟩
  rcases pbind_ok.mp h with ⟨a8, m8, h8, h⟩
  rcases pbind_ok.mp h with ⟨a9, m9, h9, h⟩
  rcases pbind_ok.mp h with ⟨a10, m10, h10, h⟩
  have e1 := consumesGe_be_u16 h1
  have e2 := consumesGe_be_u16 h2
  have e3 := consumesGe_be_u32 h3
  have e4 := consumesGe_be_u32 h4
  have e5 := consumesGe_be_u8 h5
  have e6 := consumesGe_be_u8 h6
  have e7 := consumesGe_be_u16 h7
  have e8 := consumesGe_be_u16 h8
  have e9 := consumesGe_be_u16 h9
  have e10 := consumesGe_takeN _ h10
  split at h
  · cases h; omega
  · cases h

/-! ## Dispatcher lemmas -/

theorem parse_eth_ok {bytes : List Nat} {h : Packet} {l : List Nat} :
    Packet.parse_eth bytes = .ok h l ↔
      ∃ e, Ethernet.from_bytes bytes = .ok e l ∧ h = .ETHER e := by
  unfold Packet.parse_eth
  cases he : Ethernet.from_bytes bytes with
  | ok e r =>
    constructor
    · intro h2; cases h2; exact ⟨e, rfl, rfl⟩
    · rintro ⟨a, ha, rfl⟩; cases ha; rfl
  | err =>
    constructor
    · intro h2; cases h2
    · rintro ⟨a, ha, rfl⟩; cases ha
  | fatal =>
    constructor
    · intro h2; cases h2
    · rintro ⟨a, ha, rfl⟩; cases ha

theorem parse_arp_ok {bytes : List Nat} {h : Packet} {l : List Nat} :
    Packet.parse_arp bytes = .ok h l ↔
      ∃ a, Arp.from_bytes bytes = .ok a l ∧ h = .ARP a := by
  unfold Packet.parse_arp
  cases he : Arp.from_bytes bytes with
  | ok e r =>
    constructor
    · intro h2; cases h2; exact ⟨e, rfl, rfl⟩
    · rintro ⟨a, ha, rfl⟩; cases ha; rfl
  | err =>
    constructor
    · intro h2; cases h2
    · rintro ⟨a, ha, rfl⟩; cases ha
  | fatal =>
    constructor
    · intro h2; cases h2
    · rintro ⟨a, ha, rfl⟩; cases ha

theorem parse_vlan_ok {bytes : List Nat} {h : Packet} {l : List Nat} :
    Packet.parse_vlan bytes = .ok h l ↔
      ∃ v, Dot1Q.from_bytes bytes = .ok v l ∧ h = .VLAN v := by
  unfold Packet.parse_vlan
  cases he : Dot1Q.from_bytes bytes with
  | ok e r =>
    constructor
    · intro h2; cases h2; exact ⟨e, rfl, rfl⟩
    · rintro ⟨a, ha, rfl⟩; cases ha; rfl
  | err =>
    constructor
    · intro h2; cases h2
    · rintro ⟨a, ha, rfl⟩; cases ha
  | fatal =>
    constructor
    · intro h2; cases h2
    · rintro ⟨a, ha, rfl⟩; cases ha

theorem parse_ip4_ok {bytes : List Nat} {h : Packet} {l : List Nat} :
    Packet.parse_ip4 bytes = .ok h l ↔
      ∃ v, IPv4.from_bytes bytes = .ok v l ∧ h = .IPv4 v := by
  unfold Packet.parse_ip4
  cases he : IPv4.from_bytes bytes with
  | ok e r =>
    constructor
    · intro h2; cases h2; exact ⟨e, rfl, rfl⟩
    · rintro ⟨a, ha, rfl⟩; cases ha; rfl
  | err =>
    constructor
    · intro h2; cases h2
    · rintro ⟨a, ha, rfl⟩; cases ha
  | fatal =>
    constructor
    · intro h2; cases h2
    · rintro ⟨a, ha, rfl⟩; cases ha

theorem parse_icmp4_ok {bytes : List Nat} {h : Packet} {l : List Nat} :
    Packet.parse_icmp4 bytes = .ok h l ↔
      ∃ v, Icmpv4.from_bytes bytes = .ok v l ∧ h = .ICMP4 v := by
  unfold Packet.parse_icmp4
  cases he : Icmpv4.from_bytes bytes with
  | ok e r =>
    constructor
    · intro h2; cases h2; exact ⟨e, rfl, rfl⟩
    · rintro ⟨a, ha, rfl⟩; cases ha; rfl
  | err =>
    constructor
    · intro h2; cases h2
    · rintro ⟨a, ha, rfl⟩; cases ha
  | fatal =>
    constructor
    · intro h2; cases h2
    · rintro ⟨a, ha, rfl⟩; cases ha

theorem parse_tcp_ok {bytes : List Nat} {h : Packet} {l : List Nat} :
    Packet.parse_tcp bytes = .ok h l ↔
      ∃ v, Tcp.from_bytes bytes = .ok v l ∧ h = .TCP v := by
  unfold Packet.parse_tcp
  cases he : Tcp.from_bytes bytes with
  | ok e r =>
    constructor
    · intro h2; cases h2; exact ⟨e, rfl, rfl⟩
    · rintro ⟨a, ha, rfl⟩; cases ha; rfl
  | err =>
    constructor
    · intro h2; cases h2
    · rintro ⟨a, ha, rfl⟩; cases ha
  | fatal =>
    constructor
    · intro h2; cases h2
    · rintro ⟨a, ha, rfl⟩; cases ha

theorem parse_udp_ok {bytes : List Nat} {h : Packet} {l : List Nat} :
    Packet.parse_udp bytes = .ok h l ↔
      ∃ v, Udp.from_bytes bytes = .ok v l ∧ h = .UDP v := by
  unfold Packet.parse_udp
  cases he : Udp.from_bytes bytes with
  | ok e r =>
    constructor
    · intro h2; cases h2; exact ⟨e, rfl, rfl⟩
    · rintro ⟨a, ha, rfl⟩; cases ha; rfl
  | err =>
    constructor
    · intro h2; cases h2
    · rintro ⟨a, ha, rfl⟩; cases ha
  | fatal =>
    constructor
    · intro h2; cases h2
    · rintro ⟨a, ha, rfl⟩; cases ha

/-- Every codec the dispatcher can pick hands back a suffix of its input,
and the `_other` arm returns an empty leftover. -/
theorem next_codec_suffix {last : Packet} {bytes : List Nat} {h : Packet}
    {l : List Nat} (hok : Packet.next_codec last bytes = .ok h l) :
    ∃ t, t ++ l = bytes := by
  have harp : Packet.parse_arp bytes = .ok h l → ∃ t, t ++ l = bytes := by
    intro hp; rcases parse_arp_ok.mp hp with ⟨a, ha, -⟩; exact consumes_arp ha
  have hvlan : Packet.parse_vlan bytes = .ok h l → ∃ t, t ++ l = bytes := by
    intro hp; rcases parse_vlan_ok.mp hp with ⟨a, ha, -⟩; exact consumes_dot1q ha
  have hip : Packet.parse_ip4 bytes = .ok h l → ∃ t, t ++ l = bytes := by
    intro hp; rcases parse_ip4_ok.mp hp with ⟨a, ha, -⟩; exact consumes_ipv4 ha
  have hicmp : Packet.parse_icmp4 bytes = .ok h l → ∃ t, t ++ l = bytes := by
    intro hp; rcases parse_icmp4_ok.mp hp with ⟨a, ha, -⟩; exact consumes_icmpv4 ha
  have htcp : Packet.parse_tcp bytes = .ok h l → ∃ t, t ++ l = bytes := by
    intro hp; rcases parse_tcp_ok.mp hp with ⟨a, ha, -⟩; exact consumes_tcp ha
  have hudp : Packet.parse_udp bytes = .ok h l → ∃ t, t ++ l = bytes := by
    intro hp; rcases parse_udp_ok.mp hp with ⟨a, ha, -⟩; exact consumes_udp ha
  have hpay : PRes.ok (Packet.Payload bytes) [] = PRes.ok h l →
      ∃ t, t ++ l = bytes := by
    intro hp; cases hp; exact ⟨bytes, by simp⟩
  cases last with
  | ETHER e =>
    simp only [Packet.next_codec] at hok
    split_ifs at hok
    · exact harp hok
    · exact hvlan hok
    · exact hip hok
    · exact hpay hok
  | VLAN v =>
    simp only [Packet.next_codec] at hok
    split_ifs at hok
    · exact harp hok
    · exact hvlan hok
    · exact hip hok
    · exact hpay hok
  | IPv4 ip =>
    simp only [Packet.next_codec] at hok
    split_ifs at hok
    · exact hicmp hok
    · exact htcp hok
    · exact hudp hok
    · exact hpay hok
  | ARP a => simp only [Packet.next_codec] at hok; exact hpay hok
  | ICMP4 a => simp only [Packet.next_codec] at hok; exact hpay hok
  | UDP a => simp only [Packet.next_codec] at hok; exact hpay hok
  | TCP a => simp only [Packet.next_codec] at hok; exact hpay hok
  | Payload a => simp only [Packet.next_codec] at hok; exact hpay hok

/-- Every codec the dispatcher can pick consumes at least one byte on
success; the `_other` arm returns an empty leftover. -/
theorem next_codec_len {last : Packet} {bytes : List Nat} {h : Packet}
    {l : List Nat} (hok : Packet.next_codec last bytes = .ok h l) :
    l = [] ∨ l.length < bytes.length := by
  have harp : Packet.parse_arp bytes = .ok h l → l.length < bytes.length := by
    intro hp; rcases parse_arp_ok.mp hp with ⟨a, ha, -⟩
    have := arp_shrinks ha; omega
  have hvlan : Packet.parse_vlan bytes = .ok h l → l.length < bytes.length := by
    intro hp; rcases parse_vlan_ok.mp hp with ⟨a, ha, -⟩
    have := dot1q_shrinks ha; omega
  have hip : Packet.parse_ip4 bytes = .ok h l → l.length < bytes.length := by
    intro hp; rcases parse_ip4_ok.mp hp with ⟨a, ha, -⟩
    have := ipv4_shrinks ha; omega
  have hicmp : Packet.parse_icmp4 bytes = .ok h l → l.length < bytes.length := by
    intro hp; rcases parse_icmp4_ok.mp hp with ⟨a, ha, -⟩
    have := icmpv4_shrinks ha; omega
  have htcp : Packet.parse_tcp bytes = .ok h l → l.length < bytes.length := by
    intro hp; rcases parse_tcp_ok.mp hp with ⟨a, ha, -⟩
    have := tcp_shrinks ha; omega
  have hudp : Packet.parse_udp bytes = .ok h l → l.length < bytes.length := by
    intro hp; rcases parse_udp_ok.mp hp with ⟨a, ha, -⟩
    have := udp_shrinks ha; omega
  have hpay : PRes.ok (Packet.Payload bytes) [] = PRes.ok h l → l = [] := by
    intro hp; cases hp; rfl
  cases last with
  | ETHER e =>
    simp only [Packet.next_codec] at hok
    split_ifs at hok
    · exact Or.inr (harp hok)
    · exact Or.inr (hvlan hok)
    · exact Or.inr (hip hok)
    · exact Or.inl (hpay hok)
  | VLAN v =>
    simp only [Packet.next_codec] at hok
    split_ifs at hok
    · exact Or.inr (harp hok)
    · exact Or.inr (hvlan hok)
    · exact Or.inr (hip hok)
    · exact Or.inl (hpay hok)
  | IPv4 ip =>
    simp only [Packet.next_codec] at hok
    split_ifs at hok
    · exact Or.inr (hicmp hok)
    · exact Or.inr (htcp hok)
    · exact Or.inr (hudp hok)
    · exact Or.inl (hpay hok)
  | ARP a => simp only [Packet.next_codec] at hok; exact Or.inl (hpay hok)
  | ICMP4 a => simp only [Packet.next_codec] at hok; exact Or.inl (hpay hok)
  | UDP a => simp only [Packet.next_codec] at hok; exact Or.inl (hpay hok)
  | TCP a => simp only [Packet.next_codec] at hok; exact Or.inl (hpay hok)
  | Payload a => simp only [Packet.next_codec] at hok; exact Or.inl (hpay hok)

/-- Each dispatch-loop iteration either empties the remainder or strictly
shrinks it. -/
theorem parse_next_shrinks {pkt : List Packet} {bytes : List Nat}
    {hs : List Packet} {l : List Nat}
    (h : Packet.parse_next pkt bytes = some (hs, l)) :
    l = [] ∨ l.length < bytes.length := by
  unfold Packet.parse_next at h
  cases hl : pkt.getLast? with
  | none => rw [hl] at h; cases h
  | some last =>
    rw [hl] at h
    dsimp only at h
    cases hc : Packet.next_codec last bytes with
    | ok p rest =>
      rw [hc] at h
      cases h
      exact next_codec_len hc
    | err => rw [hc] at h; cases h; exact Or.inl rfl
    | fatal => rw [hc] at h; cases h

theorem parseLoop_nil {fuel : Nat} (hs : List Packet) (h : 0 < fuel) :
    Packet.parseLoop fuel hs [] = some hs := by
  cases fuel with
  | zero => omega
  | succ n => simp [Packet.parseLoop]

/-- Fuel irrelevance: any fuel beyond the length of the remaining bytes
gives the same result, i.e. the loop is well-founded on the remainder. -/
theorem parseLoop_congr :
    ∀ f1 f2 : Nat, ∀ hs : List Packet, ∀ l : List Nat,
      l.length < f1 → l.length < f2 →
      Packet.parseLoop f1 hs l = Packet.parseLoop f2 hs l := by
  intro f1
  induction f1 with
  | zero => intro f2 hs l h1; omega
  | succ n ih =>
    intro f2 hs l h1 h2
    cases f2 with
    | zero => omega
    | succ m =>
      by_cases hl : l = []
      · subst hl; simp [Packet.parseLoop]
      · simp only [Packet.parseLoop, if_neg hl]
        cases hn : Packet.parse_next hs l with
        | none => rfl
        | some p =>
          obtain ⟨hs2, l2⟩ := p
          dsimp only
          have hne : l.length ≠ 0 := by
            intro h0; exact hl (List.length_eq_zero.mp h0)
          rcases parse_next_shrinks hn with h0 | hlt
          · subst h0
            rw [parseLoop_nil hs2 (by omega), parseLoop_nil hs2 (by omega)]
          · exact ih m hs2 l2 (by omega) (by omega)

/-! ## Span (consumed-bytes) lemmas -/

theorem take_consumed (t l : List Nat) :
    (t ++ l).take ((t ++ l).length - l.length) = t := by
  have hlen : (t ++ l).length - l.length = t.length := by simp
  rw [hlen, List.take_left]

/-- The instrumented single step projects onto the plain single step. -/
theorem parse_nextS_fst (pktS : List (Packet × List Nat)) (bytes : List Nat) :
    (Packet.parse_nextS pktS bytes).map (fun x => (x.1.map Prod.fst, x.2)) =
      Packet.parse_next (pktS.map Prod.fst) bytes := by
  unfold Packet.parse_nextS Packet.parse_next
  rw [List.getLast?_map]
  cases hl : pktS.getLast? with
  | none => rfl
  | some p =>
    dsimp only [Option.map]
    cases hc : Packet.next_codec p.1 bytes with
    | ok h l => simp
    | err => simp
    | fatal => rfl

/-- The instrumented loop projects onto the plain loop. -/
theorem parseLoopS_fst :
    ∀ (fuel : Nat) (pktS : List (Packet × List Nat)) (l : List Nat),
      (Packet.parseLoopS fuel pktS l).map (List.map Prod.fst) =
        Packet.parseLoop fuel (pktS.map Prod.fst) l := by
  intro fuel
  induction fuel with
  | zero => intro pktS l; rfl
  | succ n ih =>
    intro pktS l
    by_cases hl : l = []
    · subst hl; simp [Packet.parseLoopS, Packet.parseLoop]
    · simp only [Packet.parseLoopS, Packet.parseLoop, if_neg hl]
      have hstep := parse_nextS_fst pktS l
      cases hn : Packet.parse_nextS pktS l with
      | none =>
        rw [hn] at hstep
        rw [← hstep]
        rfl
      | some p =>
        obtain ⟨hs2, l2⟩ := p
        rw [hn] at hstep
        rw [← hstep]
        dsimp only
        exact ih hs2 l2

/-- Loop invariant: on success, the concatenation of the recorded spans
extends the already-recorded spans by exactly the remaining bytes. -/
theorem parseLoopS_flatten :
    ∀ (fuel : Nat) (pktS : List (Packet × List Nat)) (l : List Nat)
      (res : List (Packet × List Nat)),
      Packet.parseLoopS fuel pktS l = some res →
      (res.map Prod.snd).flatten = (pktS.map Prod.snd).flatten ++ l := by
  intro fuel
  induction fuel with
  | zero => intro pktS l res h; cases h
  | succ n ih =>
    intro pktS l res h
    by_cases hl : l = []
    · subst hl
      simp only [Packet.parseLoopS, if_pos rfl] at h
      cases h
      simp
    · simp only [Packet.parseLoopS, if_neg hl] at h
      unfold Packet.parse_nextS at h
      cases hg : pktS.getLast? with
      | none => rw [hg] at h; cases h
      | some p =>
        rw [hg] at h
        dsimp only at h
        cases hc : Packet.next_codec p.1 l with
        | ok hd l2 =>
          rw [hc] at h
          have hres := ih _ _ _ h
          rcases next_codec_suffix hc with ⟨t, rfl⟩
          rw [hres]
          simp [take_consumed]
        | err =>
          rw [hc] at h
          have hres := ih _ _ _ h
          rw [hres]
          simp
        | fatal => rw [hc] at h; cases h

/-! ## One's-complement checksum lemmas -/

/-- With fuel at least the summand, the fuelled carry loop computes the
closed form `carryNF`; in particular the loop terminates. -/
theorem foldCarryAux_eq : ∀ fuel s, s ≤ fuel → foldCarryAux fuel s = carryNF s := by
  intro fuel
  induction fuel with
  | zero =>
    intro s hs
    have : s = 0 := by omega
    subst this
    rfl
  | succ n ih =>
    intro s hs
    unfold foldCarryAux
    split
    · rw [ih (s / 65536 + s % 65536) (by omega)]
      unfold carryNF
      split_ifs <;> omega
    · unfold carryNF
      split_ifs <;> omega

theorem foldCarry_eq (s : Nat) : foldCarry s = carryNF s :=
  foldCarryAux_eq s s le_rfl

theorem onesAdd_le {a b : Nat} (ha : a ≤ 0xffff) (hb : b ≤ 0xffff) :
    onesAdd a b ≤ 0xffff := by
  unfold onesAdd
  split <;> omega

theorem foldl_add_shift : ∀ (ws : List Nat) (a b : Nat),
    ws.foldl (· + ·) (a + b) = a + ws.foldl (· + ·) b := by
  intro ws
  induction ws with
  | nil => intro a b; rfl
  | cons w t ih =>
    intro a b
    simp only [List.foldl_cons]
    rw [Nat.add_assoc, ih]

theorem carryNF_sub {x : Nat} (S : Nat) (hx : 0xffff < x) :
    carryNF (x - 0xffff + S) = carryNF (x + S) := by
  unfold carryNF
  split_ifs <;> omega

/-- Folding with per-addition end-around carry equals the closed form of
the total sum, for 16-bit words. -/
theorem onesSum_aux : ∀ (ws : List Nat) (acc : Nat), acc ≤ 0xffff →
    (∀ w ∈ ws, w ≤ 0xffff) →
    ws.foldl onesAdd acc = carryNF (acc + ws.foldl (· + ·) 0) := by
  intro ws
  induction ws with
  | nil =>
    intro acc hacc _
    simp only [List.foldl_nil, Nat.add_zero]
    unfold carryNF
    split_ifs <;> omega
  | cons w t ih =>
    intro acc hacc hws
    have hw : w ≤ 0xffff := hws w (by simp)
    have ht : ∀ x ∈ t, x ≤ 0xffff := fun x hx => hws x (by simp [hx])
    simp only [List.foldl_cons]
    rw [ih (onesAdd acc w) (onesAdd_le hacc hw) ht]
    have hshift : t.foldl (· + ·) (0 + w) = w + t.foldl (· + ·) 0 := by
      have h2 := foldl_add_shift t w 0
      rw [Nat.add_zero] at h2
      rw [Nat.zero_add]
      exact h2
    rw [hshift]
    unfold onesAdd
    split
    · rw [← Nat.add_assoc]
      have := carryNF_sub (x := acc + w) (t.foldl (· + ·) 0) (by omega)
      rw [this, Nat.add_assoc]
    · rw [← Nat.add_assoc]

theorem onesSum_eq (ws : List Nat) (h : ∀ w ∈ ws, w ≤ 0xffff) :
    onesSum ws = carryNF (ws.foldl (· + ·) 0) := by
  unfold onesSum
  have := onesSum_aux ws 0 (by omega) h
  simpa using this

/-- A single end-around fold that stays within 16 bits already reaches the
closed form. -/
theorem single_fold_eq {S : Nat} (h : S % 65536 + S / 65536 ≤ 0xffff) :
    S % 65536 + S / 65536 = carryNF S := by
  unfold carryNF
  split_ifs <;> omega

theorem chunks2_nil (p : List Nat)
    (h : ∀ (b0 b1 : Nat) (rest : List Nat), p = b0 :: b1 :: rest → False) :
    chunks2 p = [] := by
  cases p with
  | nil => rfl
  | cons a t =>
    cases t with
    | nil => rfl
    | cons b r => exact (h a b r rfl).elim

theorem chunks2_bound : ∀ p, Bytes p → ∀ w ∈ chunks2 p, w ≤ 0xffff := by
  intro p
  induction p using chunks2.induct with
  | case1 b0 b1 rest ih =>
    intro hb w hw
    simp only [chunks2] at hw
    rcases List.mem_cons.mp hw with rfl | hw
    · have h0 : b0 < 256 := hb _ (by simp)
      have h1 : b1 < 256 := hb _ (by simp)
      omega
    · exact ih (fun b hbm => hb b (by simp [hbm])) w hw
  | case2 p h =>
    intro _ w hw
    rw [chunks2_nil p h] at hw
    simp at hw

/-- `chunks_exact(2)` ignores a trailing odd byte. -/
theorem chunks2_append_even : ∀ p (b : Nat), 2 ∣ p.length →
    chunks2 (p ++ [b]) = chunks2 p := by
  intro p
  induction p using chunks2.induct with
  | case1 b0 b1 rest ih =>
    intro b hb
    simp only [List.cons_append, chunks2, List.append_eq]
    rw [ih b (by simp at hb ⊢; omega)]
  | case2 p h =>
    intro b hb
    rw [chunks2_nil p h]
    cases p with
    | nil => rfl
    | cons a t =>
      cases t with
      | nil => simp at hb
      | cons c r => exact (h a c r rfl).elim

/-! ## TCP option-loop lemmas -/

/-- Whatever option list the fuelled loop returns is generated by the
option grammar `OptsSpec`. -/
theorem parse_optionsF_sound :
    ∀ (fuel : Nat) (b : List Nat) (opts : List TcpOption),
      parse_optionsF fuel b = some opts → OptsSpec b opts := by
  intro fuel
  induction fuel with
  | zero => intro b opts h; cases h
  | succ n ih =>
    intro b opts h
    unfold parse_optionsF at h
    cases hf : TcpOption.from_bytes b with
    | err => rw [hf] at h; cases h
    | fatal => rw [hf] at h; cases h
    | ok o leftover =>
      rw [hf] at h
      unfold TcpOption.from_bytes at hf
      rcases pbind_ok.mp hf with ⟨k, m1, hk, hrest⟩
      rcases pbind_ok.mp hrest with ⟨d, m2, hd, hpp⟩
      rcases ppure_ok.mp hpp with ⟨rfl, rfl⟩
      rw [be_u8_ok] at hk
      subst hk
      unfold tcp_option_data at hd
      by_cases hk01 : k = 0 ∨ k = 1
      · rw [if_pos hk01] at hd
        rcases ppure_ok.mp hd with ⟨rfl, rfl⟩
        rcases hk01 with rfl | rfl
        · simp only [if_pos rfl] at h
          cases h
          exact OptsSpec.eol _
        · simp only [if_neg (by simp : ¬ (1 : Nat) = 0)] at h
          rcases Option.map_eq_some'.mp h with ⟨opts2, hp, rfl⟩
          exact OptsSpec.nop _ opts2 (ih _ opts2 hp)
      · push_neg at hk01
        rw [if_neg (by tauto)] at hd
        rcases pbind_ok.mp hd with ⟨L, m3, hL, hd2⟩
        rcases pbind_ok.mp hd2 with ⟨val, m4, hval, hpp2⟩
        rcases ppure_ok.mp hpp2 with ⟨rfl, rfl⟩
        rw [be_u8_ok] at hL
        subst hL
        rcases takeN_ok.mp hval with ⟨hle, rfl, rfl⟩
        simp only [if_neg hk01.1] at h
        rcases Option.map_eq_some'.mp h with ⟨opts2, hp, rfl⟩
        · have hsplit : m3 = m3.take (wrapSub8 L 2) ++ m3.drop (wrapSub8 L 2) :=
            (List.take_append_drop _ m3).symm
          have hlen : (m3.take (wrapSub8 L 2)).length = wrapSub8 L 2 := by
            rw [List.length_take]
            omega
          have := OptsSpec.other k L (m3.take (wrapSub8 L 2))
            (m3.drop (wrapSub8 L 2)) opts2 hk01.1 hk01.2 hlen
            (ih _ opts2 hp)
          rw [← hsplit] at this
          exact this

/-- Any option list generated by the grammar is returned by the loop, given
fuel beyond the region length (the loop consumes at least one byte per
produced option). -/
theorem parse_optionsF_complete :
    ∀ {b : List Nat} {opts : List TcpOption}, OptsSpec b opts →
      ∀ fuel : Nat, b.length < fuel → parse_optionsF fuel b = some opts := by
  intro b opts h
  induction h with
  | eol rest =>
    intro fuel hf
    cases fuel with
    | zero => simp at hf
    | succ n =>
      unfold parse_optionsF
      have hfb : TcpOption.from_bytes (0 :: rest) = .ok ⟨0, [], []⟩ rest := by
        simp [TcpOption.from_bytes, tcp_option_data, pbind, be_u8, ppure]
      rw [hfb]
      simp
  | nop rest opts2 hr ih =>
    intro fuel hf
    cases fuel with
    | zero => simp at hf
    | succ n =>
      unfold parse_optionsF
      have hfb : TcpOption.from_bytes (1 :: rest) = .ok ⟨1, [], []⟩ rest := by
        simp [TcpOption.from_bytes, tcp_option_data, pbind, be_u8, ppure]
      rw [hfb]
      have hrec := ih n (by simp at hf; omega)
      simp only [if_neg (by simp : ¬ (1 : Nat) = 0), hrec, Option.map_some]
      rfl
  | other k L data rest opts2 hk0 hk1 hlen hr ih =>
    intro fuel hf
    cases fuel with
    | zero => simp at hf
    | succ n =>
      unfold parse_optionsF
      have hfb : TcpOption.from_bytes (k :: L :: (data ++ rest)) =
          .ok ⟨k, [L], data⟩ rest := by
        unfold TcpOption.from_bytes tcp_option_data
        simp only [pbind, be_u8]
        rw [if_neg (by tauto)]
        simp only [pbind, be_u8]
        rw [takeN_append rest hlen]
        simp [ppure]
      rw [hfb]
      have hrec := ih n (by simp at hf; omega)
      simp only [if_neg hk0, hrec, Option.map_some]
      rfl

/-! ## Dispatcher evaluation helpers (for the stacked-VLAN theorem) -/

theorem parseLoop_step (fuel : Nat) (hs : List Packet) (l : List Nat)
    (h : l ≠ []) :
    Packet.parseLoop (fuel + 1) hs l =
      match Packet.parse_next hs l with
      | some (hs2, l2) => Packet.parseLoop fuel hs2 l2
      | none => none := by
  simp [Packet.parseLoop, h]

theorem parse_next_ok {pkt : List Packet} {last : Packet} {bytes : List Nat}
    {h : Packet} {l : List Nat} (hg : pkt.getLast? = some last)
    (hc : Packet.next_codec last bytes = .ok h l) :
    Packet.parse_next pkt bytes = some (pkt ++ [h], l) := by
  unfold Packet.parse_next
  rw [hg]
  dsimp only
  rw [hc]

theorem next_codec_vlan {p : Packet} (bytes : List Nat) (h : SelectsVlan p) :
    Packet.next_codec p bytes = Packet.parse_vlan bytes := by
  cases p <;> simp only [SelectsVlan] at h
  · rename_i e
    simp [Packet.next_codec, h]
  · rename_i v
    simp [Packet.next_codec, h]

theorem next_codec_vlan_arp {v : Dot1Q} (bytes : List Nat) (h : v.tpid = 0x0806) :
    Packet.next_codec (.VLAN v) bytes = Packet.parse_arp bytes := by
  simp [Packet.next_codec, h]

theorem next_codec_eth_other {e : Ethernet} (bytes : List Nat)
    (h1 : e.eth_type ≠ 0x0806) (h2 : e.eth_type ≠ 0x8100)
    (h3 : e.eth_type ≠ 0x0800) :
    Packet.next_codec (.ETHER e) bytes = .ok (.Payload bytes) [] := by
  simp [Packet.next_codec, h1, h2, h3]

theorem parse_vlan_eval {bytes : List Nat} {v : Dot1Q} {l : List Nat}
    (h : Dot1Q.from_bytes bytes = .ok v l) :
    Packet.parse_vlan bytes = .ok (.VLAN v) l := by
  unfold Packet.parse_vlan
  rw [h]

theorem parse_arp_eval {bytes : List Nat} {a : Arp} {l : List Nat}
    (h : Arp.from_bytes bytes = .ok a l) :
    Packet.parse_arp bytes = .ok (.ARP a) l := by
  unfold Packet.parse_arp
  rw [h]

theorem dot1q_step_8100 (r : List Nat) :
    Dot1Q.from_bytes ([0x00, 0x64, 0x81, 0x00] ++ r) = .ok ⟨0x8100, 100⟩ r := rfl

theorem dot1q_step_0806 (r : List Nat) :
    Dot1Q.from_bytes ([0x00, 0xc8, 0x08, 0x06] ++ r) = .ok ⟨0x0806, 200⟩ r := rfl

theorem arp_step : Arp.from_bytes arpRaw = .ok arpVal [] := by decide

theorem stackBytes_ne_nil (n : Nat) : stackBytes n ≠ [] := by
  cases n <;> simp [stackBytes]

theorem stackBytes_length (n : Nat) : (stackBytes n).length = 4 * n + 32 := by
  induction n with
  | zero => rfl
  | succ m ih => simp [stackBytes, ih]; omega

/-- Arbitrarily deep 0x8100 VLAN stacking: from any state whose last layer
selects the Dot1Q codec, the loop peels `n` stacked 0x8100 tags, one
0x0806 tag, and the ARP header, in order. -/
theorem vlan_stack_loop :
    ∀ (n fuel : Nat) (hs : List Packet) (p : Packet),
      hs.getLast? = some p → SelectsVlan p → n + 3 ≤ fuel →
      Packet.parseLoop fuel hs (stackBytes n) = some (hs ++ stackLayers n) := by
  intro n
  induction n with
  | zero =>
    intro fuel hs p hg hsel hf
    obtain ⟨f1, rfl⟩ : ∃ f1, fuel = f1 + 1 := ⟨fuel - 1, by omega⟩
    rw [parseLoop_step _ _ _ (stackBytes_ne_nil 0)]
    rw [parse_next_ok hg (by
      rw [next_codec_vlan _ hsel]
      exact parse_vlan_eval (by rw [show stackBytes 0 = [0x00, 0xc8, 0x08, 0x06] ++ arpRaw from rfl]; exact dot1q_step_0806 arpRaw))]
    dsimp only
    obtain ⟨f2, rfl⟩ : ∃ f2, f1 = f2 + 1 := ⟨f1 - 1, by omega⟩
    rw [parseLoop_step _ _ _ (by simp [arpRaw])]
    rw [parse_next_ok (List.getLast?_concat _)
      (by rw [next_codec_vlan_arp _ rfl]; exact parse_arp_eval arp_step)]
    dsimp only
    rw [parseLoop_nil _ (by omega)]
    simp [stackLayers]
  | succ n ih =>
    intro fuel hs p hg hsel hf
    obtain ⟨f1, rfl⟩ : ∃ f1, fuel = f1 + 1 := ⟨fuel - 1, by omega⟩
    rw [show stackBytes (n + 1) = [0x00, 0x64, 0x81, 0x00] ++ stackBytes n from rfl]
    rw [parseLoop_step _ _ _ (by simp)]
    rw [parse_next_ok hg (by
      rw [next_codec_vlan _ hsel]
      exact parse_vlan_eval (dot1q_step_8100 (stackBytes n)))]
    dsimp only
    rw [ih f1 _ (.VLAN ⟨0x8100, 100⟩) (List.getLast?_concat _) rfl (by omega)]
    simp [stackLayers]

theorem parse_eth_eval {bytes : List Nat} {e : Ethernet} {l : List Nat}
    (h : Ethernet.from_bytes bytes = .ok e l) :
    Packet.parse_eth bytes = .ok (.ETHER e) l := by
  unfold Packet.parse_eth
  rw [h]

theorem ethernet_from_bytes_append (d s : List Nat) (hi lo : Nat)
    (r : List Nat) (hd : d.length = 6) (hs : s.length = 6) :
    Ethernet.from_bytes (d ++ (s ++ hi :: lo :: r)) =
      .ok ⟨d, s, hi * 256 + lo⟩ r := by
  unfold Ethernet.from_bytes parse_macaddr pbind
  rw [takeN_append _ hd]
  dsimp only
  rw [takeN_append _ hs]
  rfl

/-! ## Claims -/

/-- Claim C1, counterexample, both failures of the claim as stated.
First: the claim promises that `Packet::parse` returns a layer sequence
for every finite input, but on a 58-byte frame (Ethernet 0x0800, IPv4
protocol 6, TCP whose options region `[1,1,1,7]` holds no end-of-list
option) the option loop's `unwrap()` panics and no Packet is returned at
all.  Second: the claim's parenthetical reformulation — "equivalently,
each layer's re-encoded bytes at its original consumed length" — fails
even on inputs where parse does return: on `tcpPadFrame` the TCP codec
consumes the 24 bytes `tcpPadRaw`, whose options region is end-of-list
followed by `FF FF FF`, but `as_bytes` of the decoded layer re-encodes
those trailing bytes as zero padding, so the re-encoded bytes (also 24
bytes long) differ from the bytes consumed. -/
theorem claim1_total_coverage_cx :
    Packet.parse parsePanicInput7 = none ∧
    Packet.parseSpans tcpPadFrame =
      some [(.ETHER ethIpVal, ethIpRaw), (.IPv4 (ip4ProtoVal 6), ip4Proto 6),
            (.TCP tcpProtoVal, tcpPadRaw)] ∧
    Tcp.as_bytes tcpProtoVal ≠ tcpPadRaw ∧
    Tcp.as_bytes tcpProtoVal =
      [0,80, 0,80, 0,0,0,0, 0,0,0,0, 0x60, 0, 0,0, 0,0, 0,0] ++
        [0, 0, 0, 0] := by
  exact ⟨by decide, by decide, by decide, by decide⟩

/-- Claim C1 (amended): on every input on which `Packet.parse` does return
a layer sequence (it panics on some inputs, see the counterexample), the
bytes each layer's codec consumed — recorded by the instrumented
`Packet.parseSpans`, which runs in lockstep with `Packet.parse` —
concatenate, in on-wire order, to exactly the original input.  The
original claim's parenthetical "(equivalently, each layer's re-encoded
bytes at its original consumed length)" is not kept: the counterexample
shows it inequivalent, since a decoded TCP layer re-encodes the options
bytes after its end-of-list option as zero padding. -/
theorem claim1_total_coverage :
    ∀ (bytes : List Nat) (layers : List Packet),
      Packet.parse bytes = some layers →
      ∃ spans : List (Packet × List Nat),
        Packet.parseSpans bytes = some spans ∧
        spans.map Prod.fst = layers ∧
        (spans.map Prod.snd).flatten = bytes := by
  intro bytes layers h
  unfold Packet.parse at h
  unfold Packet.parseSpans
  cases he : Packet.parse_eth bytes with
  | err =>
    rw [he] at h
    cases h
    exact ⟨[(.Payload bytes, bytes)], rfl, rfl, by simp⟩
  | fatal => rw [he] at h; cases h
  | ok eth leftover =>
    rw [he] at h
    dsimp only at h
    dsimp only
    have hfst := parseLoopS_fst (bytes.length + 1)
      [(eth, bytes.take (bytes.length - leftover.length))] leftover
    simp only [List.map_cons, List.map_nil] at hfst
    rw [h] at hfst
    cases hs : Packet.parseLoopS (bytes.length + 1)
        [(eth, bytes.take (bytes.length - leftover.length))] leftover with
    | none => rw [hs] at hfst; cases hfst
    | some spans =>
      rw [hs] at hfst
      refine ⟨spans, rfl, by simpa using hfst, ?_⟩
      have hj := parseLoopS_flatten _ _ _ _ hs
      rcases parse_eth_ok.mp he with ⟨e, hfe, rfl⟩
      rcases consumes_ethernet hfe with ⟨t, rfl⟩
      rw [hj]
      simp [take_consumed]

/-- Claim C1 witness: a concrete run of the coverage theorem on the
three-byte input `[1, 2, 3]` (a truncated Ethernet header, absorbed into a
single Payload layer). -/
theorem claim1_total_coverage_witness :
    ∃ spans : List (Packet × List Nat),
      Packet.parseSpans [1, 2, 3] = some spans ∧
      spans.map Prod.fst = [.Payload [1, 2, 3]] ∧
      (spans.map Prod.snd).flatten = [1, 2, 3] :=
  claim1_total_coverage [1, 2, 3] [.Payload [1, 2, 3]] (by decide)

/-- Claim C2: the first conjunct shows `Packet.parse` panicking (a failure
escaping to the caller) on a well-formed Ethernet+IPv4+TCP frame whose TCP
options region `[1,1,1,1]` holds no end-of-list option, refuting "never
raises or propagates a failure for any input".  The other conjuncts show
the two absorption behaviours the claim correctly describes: a failed
initial Ethernet decode becomes one `Payload` of the whole input, and a
failed mid-sequence codec (ARP on 3 leftover bytes) becomes one trailing
`Payload` with the earlier layers kept. -/
theorem claim2_failure_absorption :
    Packet.parse parsePanicInput = none ∧
    Packet.parse [1, 2, 3] = some [.Payload [1, 2, 3]] ∧
    Packet.parse ([0,0,0,0,0,0, 0,0,0,0,0,0, 0x08, 0x06] ++ [1, 2, 3]) =
      some [.ETHER ethArpVal, .Payload [1, 2, 3]] := by
  exact ⟨by decide, by decide, by decide⟩

set_option maxRecDepth 4096 in
/-- Claim C3: on a 272-byte input whose IPv4 header-length nibble is 4
(< 5), the decode does NOT fail with an invalid-length error: the `u8`
computation `4 * 4 - 20` wraps to 252 (a debug build would panic), and the
decode succeeds, swallowing 252 garbage "option" bytes.  On a short (20
byte) input with the same nibble the failure that does occur is the
`take(252)` running out of bytes, not an explicit length check. -/
theorem claim3_ipv4_ihl_underflow :
    IPv4.from_bytes ihl4Input = .ok ihl4Val [] ∧
    ihl4Val.options.length = 252 ∧
    IPv4.from_bytes (0x44 :: List.replicate 19 0) = .err := by
  exact ⟨by decide, by decide, by decide⟩

set_option maxRecDepth 4096 in
/-- Claim C4: with a data-offset nibble of 4 (< 5) the TCP decode does not
fail explicitly: `(4 - 5) * 4` wraps to 252 in `u8` and the decode
succeeds, consuming a 252-byte phantom options region (debug builds
panic).  An option with declared length 0 makes `(0 - 2)` wrap to 254,
`take(254)` fail, and the `unwrap()` in `parse_options` panic (`fatal`)
instead of returning an invalid-length error. -/
theorem claim4_tcp_underflow :
    Tcp.from_bytes tcpDo4Input = .ok tcpDo4Val [] ∧
    Tcp.from_bytes tcpOptLen0Input = .fatal := by
  exact ⟨by decide, by decide⟩

/-- Claim C5: round-trip `as_bytes (from_bytes bytes) = bytes` holds on a
literal frame for Ethernet, Dot1Q, ARP, IPv4, ICMPv4, UDP, TCP with
options, and for the GRE flag combinations whose decode is consistent
(0x00, 0x10, 0x30, 0xB0) — but the final conjunct refutes the claim for
GRE: with flags 0x20 (key-present only) the decoder sets `has_sequence`
from `(flags >> 4) != 0`, so re-encoding emits flags 0x30 plus a phantom
4-byte sequence number and does not reproduce the consumed bytes. -/
theorem claim5_roundtrip :
    (Ethernet.from_bytes ethRtRaw = .ok ethRtVal [] ∧
      Ethernet.as_bytes ethRtVal = ethRtRaw) ∧
    (Dot1Q.from_bytes vlanRtRaw = .ok vlanRtVal [] ∧
      Dot1Q.as_bytes vlanRtVal = vlanRtRaw) ∧
    (Arp.from_bytes arpRaw = .ok arpVal [] ∧
      Arp.as_bytes arpVal = arpRaw) ∧
    (IPv4.from_bytes ip4RtRaw = .ok ip4RtVal [] ∧
      IPv4.as_bytes ip4RtVal = ip4RtRaw) ∧
    (Icmpv4.from_bytes icmpRtRaw = .ok icmpRtVal [] ∧
      Icmpv4.as_bytes icmpRtVal = icmpRtRaw) ∧
    (Udp.from_bytes udpRtRaw = .ok udpRtVal [] ∧
      Udp.as_bytes udpRtVal = udpRtRaw) ∧
    (Tcp.from_bytes tcpRtRaw = .ok tcpRtVal [] ∧
      Tcp.as_bytes tcpRtVal = tcpRtRaw) ∧
    (Gre.from_bytes greF00Raw = .ok greF00Val [] ∧
      Gre.as_bytes greF00Val = greF00Raw) ∧
    (Gre.from_bytes greF10Raw = .ok greF10Val [] ∧
      Gre.as_bytes greF10Val = greF10Raw) ∧
    (Gre.from_bytes greF30Raw = .ok greF30Val [] ∧
      Gre.as_bytes greF30Val = greF30Raw) ∧
    (Gre.from_bytes greFB0Raw = .ok greFB0Val [] ∧
      Gre.as_bytes greFB0Val = greFB0Raw) ∧
    (Gre.from_bytes greF20Raw = .ok greF20Val [] ∧
      Gre.as_bytes greF20Val ≠ greF20Raw) := by
  refine ⟨by decide, by decide, by decide, by decide, by decide, by decide,
    by decide, by decide, by decide, by decide, by decide, by decide⟩

/-- Claim C6: dispatcher selection.  (1) The claim's QinQ example:
Ethernet(0x8100) · Dot1Q(0x8100) · Dot1Q(0x0806) · ARP decodes to exactly
[ETHER, VLAN, VLAN, ARP].  (2) Any other ethertype after a valid Ethernet
header turns all remaining bytes into one terminal Payload.  (3) For every
stacking depth `n`, n+1 VLAN tags are decoded tag by tag before the ARP
header.  (4)-(7) IPv4 protocol numbers 1/6/17 select ICMPv4/TCP/UDP, and
ethertype 0x0806 selects ARP. -/
theorem claim6_dispatch :
    (Packet.parse qinqRaw = some [.ETHER qinqEthVal, .VLAN ⟨0x8100, 100⟩,
      .VLAN ⟨0x0806, 200⟩, .ARP arpVal]) ∧
    (∀ (d s : List Nat) (hi lo : Nat) (rest : List Nat),
      d.length = 6 → s.length = 6 → rest ≠ [] →
      hi * 256 + lo ≠ 0x0806 → hi * 256 + lo ≠ 0x8100 → hi * 256 + lo ≠ 0x0800 →
      Packet.parse (d ++ (s ++ hi :: lo :: rest)) =
        some [.ETHER ⟨d, s, hi * 256 + lo⟩, .Payload rest]) ∧
    (∀ n : Nat, Packet.parse (ethQRaw ++ stackBytes n) =
      some (.ETHER ethQVal :: stackLayers n)) ∧
    (Packet.parse icmpProtoFrame =
      some [.ETHER ethIpVal, .IPv4 (ip4ProtoVal 1), .ICMP4 ⟨8, 0, 0x1234, []⟩]) ∧
    (Packet.parse tcpProtoFrame =
      some [.ETHER ethIpVal, .IPv4 (ip4ProtoVal 6), .TCP tcpProtoVal]) ∧
    (Packet.parse udpProtoFrame =
      some [.ETHER ethIpVal, .IPv4 (ip4ProtoVal 17), .UDP udpRtVal]) ∧
    (Packet.parse ethArpFrame = some [.ETHER ethArpVal, .ARP arpVal]) := by
  refine ⟨by decide, ?_, ?_, by decide, by decide, by decide, by decide⟩
  · intro d s hi lo rest hd hs hne h1 h2 h3
    unfold Packet.parse
    rw [parse_eth_eval (ethernet_from_bytes_append d s hi lo rest hd hs)]
    dsimp only
    rw [parseLoop_step _ _ _ hne]
    rw [parse_next_ok (by simp : [Packet.ETHER ⟨d, s, hi * 256 + lo⟩].getLast? =
        some (.ETHER ⟨d, s, hi * 256 + lo⟩))
      (next_codec_eth_other rest h1 h2 h3)]
    dsimp only
    rw [parseLoop_nil _ (by simp)]
    rfl
  · intro n
    unfold Packet.parse
    have hfe : Ethernet.from_bytes (ethQRaw ++ stackBytes n) =
        .ok ethQVal (stackBytes n) :=
      ethernet_from_bytes_append [0,0,0,0,0,0] [0,0,0,0,0,0] 0x81 0x00
        (stackBytes n) rfl rfl
    rw [parse_eth_eval hfe]
    dsimp only
    rw [vlan_stack_loop n _ _ (.ETHER ethQVal) (by simp) rfl
      (by simp [ethQRaw, stackBytes_length]; omega)]
    simp

/-- Claim C6 witness: the unknown-discriminant conjunct at a concrete
frame — a valid Ethernet header with ethertype 0x9999 followed by two
bytes becomes [EtherHeader, RawPayload]. -/
theorem claim6_dispatch_witness :
    Packet.parse ([0,0,0,0,0,0] ++ ([0,0,0,0,0,0] ++ 0x99 :: 0x99 :: [1, 2])) =
      some [.ETHER ⟨[0,0,0,0,0,0], [0,0,0,0,0,0], 0x99 * 256 + 0x99⟩,
        .Payload [1, 2]] :=
  claim6_dispatch.2.1 [0,0,0,0,0,0] [0,0,0,0,0,0] 0x99 0x99 [1, 2]
    (by decide) (by decide) (by decide) (by decide) (by decide) (by decide)

/-- Claim C7, counterexample: with options region `[1]` (one no-op, no
end-of-list), the loop does not stop when the region is exhausted — the
`unwrap()` panics, so no option list at all is produced. -/
theorem claim7_tcp_options_cx : Tcp.parse_options [1] = none := by decide

/-- Claim C7 (amended): the option loop computes exactly the grammar
`OptsSpec` — one-byte kind per step; kinds 0 and 1 consume nothing
further; any other kind consumes a length byte and then length − 2
(wrapping u8) value bytes; the list ends with, and includes, the first
kind-0 option.  If the region is exhausted (or an option overruns it)
before a kind-0 option, parsing panics instead of stopping normally. -/
theorem claim7_tcp_options :
    ∀ (region : List Nat) (opts : List TcpOption),
      Tcp.parse_options region = some opts ↔ OptsSpec region opts := by
  intro region opts
  constructor
  · intro h
    exact parse_optionsF_sound (region.length + 1) region opts h
  · intro h
    exact parse_optionsF_complete h (region.length + 1) (by omega)

/-- Claim C7 witness: the grammar equivalence run on the concrete region
`[0]` (just an end-of-list option). -/
theorem claim7_tcp_options_witness :
    Tcp.parse_options [0] = some [⟨0, [], []⟩] :=
  (claim7_tcp_options [0] [⟨0, [], []⟩]).mpr (OptsSpec.eol [])

/-- Claim C8: (1) for every IPv4 header value with fields in their machine
ranges, `calculate_ip_checksum` equals the complemented one's-complement
sum (per-addition end-around carry, the glossary definition) of the ten
header words with the checksum treated as zero and options excluded;
(2) on the repository's captured valid header the recomputed checksum
equals the stored field 0x39a6; (3) `as_bytes` writes the stored checksum
field verbatim at offset 10, never recomputing it. -/
theorem claim8_ipv4_checksum :
    (∀ h : IPv4, h.version_ihl < 256 → h.tos < 256 → h.total_length < 65536 →
      h.identifier < 65536 → h.fragment_offset < 65536 → h.ttl < 256 →
      h.protocol < 256 →
      IPv4.calculate_ip_checksum h = 0xffff - onesSum h.checksumFields) ∧
    (IPv4.from_bytes ip4RtRaw = .ok ip4RtVal [] ∧
      IPv4.calculate_ip_checksum ip4RtVal = ip4RtVal.checksum) ∧
    (∀ h : IPv4, (h.as_bytes.drop 10).take 2 = u16be h.checksum) := by
  refine ⟨?_, ⟨by decide, by decide⟩, fun h => rfl⟩
  intro h h1 h2 h3 h4 h5 h6 h7
  unfold IPv4.calculate_ip_checksum
  rw [foldCarry_eq]
  rw [onesSum_eq _ ?_]
  intro w hw
  simp only [IPv4.checksumFields, List.mem_cons, List.not_mem_nil, or_false]
    at hw
  rcases hw with rfl | rfl | rfl | rfl | rfl | rfl | rfl | rfl | rfl <;> omega

/-- Claim C8 witness: the general checksum equivalence applied to the
captured test header. -/
theorem claim8_ipv4_checksum_witness :
    IPv4.calculate_ip_checksum ip4RtVal = 0xffff - onesSum ip4RtVal.checksumFields :=
  claim8_ipv4_checksum.1 ip4RtVal (by decide) (by decide) (by decide)
    (by decide) (by decide) (by decide) (by decide)

/-- Claim C9, counterexample: for code = type = 0xFF and payload
`[FF FF FF FF 00 01]` the 32-bit word sum is 0x2FFFE; the single
end-around fold of `calculate_icmp_checksum` yields 0xFFFF, while the
glossary's iterated one's-complement sum complements to 0xFFFE — the two
differ, so `calculate_icmp_checksum` is not the complemented
one's-complement sum. -/
theorem claim9_icmp_checksum_cx :
    Icmpv4.calculate_icmp_checksum icmpCarryVal = 0xffff ∧
    0xffff - onesSum icmpCarryVal.icmpWords = 0xfffe ∧
    Icmpv4.calculate_icmp_checksum icmpCarryVal ≠
      0xffff - onesSum icmpCarryVal.icmpWords := by
  exact ⟨by decide, by decide, by decide⟩

/-- Claim C9 (amended): (1) `calculate_icmp_checksum` equals the
complemented one's-complement sum of the code/type word followed by the
big-endian payload words whenever its single end-around fold does not
itself overflow 16 bits (the counterexample shows it differs otherwise);
(2) a payload extended by one byte past an even length contributes the
same words — the trailing odd byte is excluded from the sum. -/
theorem claim9_icmp_checksum :
    (∀ h : Icmpv4, h.icmp_code < 256 → h.icmp_type < 256 → Bytes h.payload →
      (h.icmpWords.foldl (· + ·) 0) % 65536 +
        (h.icmpWords.foldl (· + ·) 0) / 65536 ≤ 0xffff →
      Icmpv4.calculate_icmp_checksum h = 0xffff - onesSum h.icmpWords) ∧
    (∀ (c t cs : Nat) (p : List Nat) (b : Nat), 2 ∣ p.length →
      Icmpv4.calculate_icmp_checksum ⟨c, t, cs, p ++ [b]⟩ =
        Icmpv4.calculate_icmp_checksum ⟨c, t, cs, p⟩) := by
  constructor
  · intro h hc ht hb hfold
    unfold Icmpv4.calculate_icmp_checksum
    rw [Nat.mod_eq_of_lt (by omega), single_fold_eq hfold]
    rw [onesSum_eq _ ?_]
    intro w hw
    simp only [Icmpv4.icmpWords, List.mem_cons] at hw
    rcases hw with rfl | hw
    · omega
    · exact chunks2_bound h.payload hb w hw
  · intro c t cs p b hdvd
    unfold Icmpv4.calculate_icmp_checksum Icmpv4.icmpWords
    rw [chunks2_append_even p b hdvd]

/-- Claim C9 witness: the amended equivalence applied to the repository's
ICMPv4 test value (whose stored checksum 0x93D6 is valid). -/
theorem claim9_icmp_checksum_witness :
    Icmpv4.calculate_icmp_checksum icmpRtVal = 0xffff - onesSum icmpRtVal.icmpWords :=
  claim9_icmp_checksum.1 icmpRtVal (by decide) (by decide) (by decide) (by decide)

/-- Claim C10: (1) every dispatch-loop iteration either empties the
remainder or strictly shrinks it; (2) each wired codec consumes at least
one byte on success; (3) hence the loop is well-founded on the remaining
length: any fuel beyond the remainder's length yields the same result, so
`Packet.parse` (which supplies `length + 1` fuel) terminates on every
finite input. -/
theorem claim10_termination :
    (∀ (pkt : List Packet) (bytes : List Nat) (hs : List Packet) (l : List Nat),
      Packet.parse_next pkt bytes = some (hs, l) →
      l = [] ∨ l.length < bytes.length) ∧
    ((∀ bs (v : Ethernet) r, Ethernet.from_bytes bs = .ok v r → r.length < bs.length) ∧
     (∀ bs (v : Dot1Q) r, Dot1Q.from_bytes bs = .ok v r → r.length < bs.length) ∧
     (∀ bs (v : Arp) r, Arp.from_bytes bs = .ok v r → r.length < bs.length) ∧
     (∀ bs (v : IPv4) r, IPv4.from_bytes bs = .ok v r → r.length < bs.length) ∧
     (∀ bs (v : Icmpv4) r, Icmpv4.from_bytes bs = .ok v r → r.length < bs.length) ∧
     (∀ bs (v : Tcp) r, Tcp.from_bytes bs = .ok v r → r.length < bs.length) ∧
     (∀ bs (v : Udp) r, Udp.from_bytes bs = .ok v r → r.length < bs.length)) ∧
    (∀ (f1 f2 : Nat) (hs : List Packet) (l : List Nat),
      l.length < f1 → l.length < f2 →
      Packet.parseLoop f1 hs l = Packet.parseLoop f2 hs l) := by
  refine ⟨?_, ⟨?_, ?_, ?_, ?_, ?_, ?_, ?_⟩, parseLoop_congr⟩
  · intro pkt bytes hs l h
    exact parse_next_shrinks h
  · intro bs v r h; have := ethernet_shrinks h; omega
  · intro bs v r h; have := dot1q_shrinks h; omega
  · intro bs v r h; have := arp_shrinks h; omega
  · intro bs v r h; have := ipv4_shrinks h; omega
  · intro bs v r h; have := icmpv4_shrinks h; omega
  · intro bs v r h; have := tcp_shrinks h; omega
  · intro bs v r h; have := udp_shrinks h; omega

/-- Claim C10 witness: the fuel-irrelevance conjunct run at concrete fuel
values on an emptied remainder. -/
theorem claim10_termination_witness :
    Packet.parseLoop 1 [] [] = Packet.parseLoop 5 [] [] :=
  claim10_termination.2.2 1 5 [] [] (by decide) (by decide)

end PktRs
